import Mathlib

/-! Task and session bookkeeping of `BotController` (chat_bot).

A shallow embedding of `src/controllers/bot_controller.js`, of the request
validator of `src/routes/bot_routes.js` and of the fallback chain of
`src/services/gemini.service.js`.

Modelling conventions.

* A JavaScript string is its sequence of UTF-16 code units, so `length` is the
  JavaScript `.length` and a "character" is one code unit.
* `Map` objects are insertion-ordered association lists (`JsMap`).
* Session objects and history arrays live behind references: `State.objects` and
  `State.arrays` are heaps, addressed by position, and a reference is a position.
  `session.history.push` writes the array in place, `slice` allocates a new one.
* Task records are plain objects that are only written during the synchronous
  prefix of their own `processTask`; they are kept by value.
* An `await` splits a method into the part that runs before it and a resumption;
  the suspended call, with the locals it captured, is kept in `State.suspended`.
* `new Date()` is a parameter of the step that evaluates it (milliseconds).
-/

namespace ChatBot

/-! ## JavaScript strings and request values -/

/-- A JavaScript string: the list of its UTF-16 code units. -/
abbrev JsString := List Nat

/-- The code units of a literal made of Basic Multilingual Plane characters. -/
def lit (s : String) : JsString := s.toList.map Char.toNat

/-- Code units removed by `String.prototype.trim`: ECMAScript WhiteSpace and
LineTerminator, all of them in the Basic Multilingual Plane. -/
def isTrimUnit (c : Nat) : Bool :=
  c = 0x09 || c = 0x0A || c = 0x0B || c = 0x0C || c = 0x0D || c = 0x20 || c = 0xA0 ||
  c = 0x1680 || (0x2000 ≤ c && c ≤ 0x200A) || c = 0x2028 || c = 0x2029 || c = 0x202F ||
  c = 0x205F || c = 0x3000 || c = 0xFEFF

/-- Model of `s.trim()`: strips leading and trailing white space. -/
def trim (s : JsString) : JsString :=
  ((s.dropWhile isTrimUnit).reverse.dropWhile isTrimUnit).reverse

/-- A value found in a parsed JSON request body, as far as the handlers inspect
it. A number is kept as "is it zero", the only thing `!message` looks at. -/
inductive JsVal where
  | undefined
  | null
  | bool (b : Bool)
  | number (isZero : Bool)
  | string (s : JsString)
  | object
deriving DecidableEq, Repr

/-- JavaScript truthiness (`!v` is its negation). -/
def JsVal.truthy : JsVal → Bool
  | .undefined => false
  | .null => false
  | .bool b => b
  | .number isZero => !isZero
  | .string s => !s.isEmpty
  | .object => true

/-- Test `typeof v === "string"`. -/
def JsVal.isString : JsVal → Bool
  | .string _ => true
  | _ => false

/-- The body of `POST /chat` and `POST /chat/sync`: `message` is any JSON value
or missing, `sessionId` is a string or missing. -/
structure ChatBody where
  message : JsVal
  sessionId : Option JsString
deriving DecidableEq, Repr

/-! ## `Map` -/

/-- A JavaScript `Map` keyed by strings, in insertion order. -/
abbrev JsMap (α : Type) := List (JsString × α)

namespace JsMap

variable {α : Type}

/-- Model of `Map.prototype.get`; `none` is `undefined`. -/
def get : JsMap α → JsString → Option α
  | [], _ => none
  | (k', v) :: m, k => if k' = k then some v else get m k

/-- Model of `Map.prototype.has`. -/
def has (m : JsMap α) (k : JsString) : Bool := (get m k).isSome

/-- Model of `Map.prototype.set`: an existing key keeps its place. -/
def set : JsMap α → JsString → α → JsMap α
  | [], k, v => [(k, v)]
  | (k', v') :: m, k, v => if k' = k then (k, v) :: m else (k', v') :: set m k v

/-- Model of `Map.prototype.delete`. -/
def delete : JsMap α → JsString → JsMap α
  | [], _ => []
  | (k', v') :: m, k => if k' = k then delete m k else (k', v') :: delete m k

/-- Model of `Map.prototype.size`. -/
def size (m : JsMap α) : Nat := m.length

/-- The keys of the map, in insertion order. -/
def keys (m : JsMap α) : List JsString := m.map Prod.fst

end JsMap

/-! ## Data model -/

/-- Role tag of a history entry. -/
inductive Role where
  | user
  | model
deriving DecidableEq, Repr

/-- One history entry `{ role, parts: [{ text }] }`; `text` is `none` when the
generator delivered `undefined`. -/
structure Turn where
  role : Role
  text : Option JsString
deriving DecidableEq, Repr

/-- A session object; `history` is a reference into `State.arrays`. -/
structure Session where
  id : JsString
  history : Nat
  createdAt : Nat
  lastActive : Nat
deriving DecidableEq, Repr

/-- The `status` strings of a task. -/
inductive Status where
  | pending
  | processing
  | completed
  | failed
deriving DecidableEq, Repr

/-- The `response` object stored on a completed task. -/
structure TaskResponse where
  success : Bool
  message : JsString
  modelUsed : JsString
  timestamp : Nat
deriving DecidableEq, Repr

/-- A task record, in the pending or in the completed map. Fields that the
source adds later are `none` until then. `history` is a reference into
`State.arrays`. `processingTime` is `none` for `NaN`. -/
structure Task where
  id : JsString
  sessionId : JsString
  message : JsString
  status : Status
  submittedAt : Nat
  history : Nat
  startedAt : Option Nat
  completedAt : Option Nat
  response : Option TaskResponse
  error : Option (Option JsString)
  processingTime : Option Int
deriving DecidableEq, Repr

/-- What `geminiService.generateResponse` resolves to; a key that the result
object lacks is `none`. -/
structure GenResult where
  success : Bool
  message : Option JsString
  model : Option JsString
  isFallback : Option Bool
  error : Option JsString
  details : Option JsString
  timestamp : Nat
deriving DecidableEq, Repr

/-- How an awaited `generateResponse` call settles: it resolves to a result or
rejects with an error whose `message` is given. -/
inductive Outcome where
  | returned (response : GenResult)
  | threw (errorMessage : Option JsString)
deriving DecidableEq, Repr

/-- The arguments of a `generateResponse` call, as the generator reads them
before its first suspension (it copies the history entries at once). -/
structure GenCall where
  userMessage : JsString
  chatHistory : List Turn
deriving DecidableEq, Repr

/-- A method suspended at `await geminiService.generateResponse(...)`, with the
locals it captured: `session` is a reference into `State.objects`. -/
inductive Suspended where
  | task (taskId : JsString) (task : Task) (session : Nat) (call : GenCall)
  | chat (message : JsString) (sessionId : JsString) (session : Nat) (call : GenCall)
deriving DecidableEq, Repr

/-- The controller: the three maps of the constructor, the heaps behind the
references, and the calls suspended at an `await`. -/
structure State where
  arrays : List (List Turn)
  objects : List Session
  sessions : JsMap Nat
  pendingTasks : JsMap Task
  completedTasks : JsMap Task
  suspended : List Suspended
deriving DecidableEq, Repr

/-- The controller right after `new BotController()`. -/
def State.init : State :=
  { arrays := [], objects := [], sessions := [], pendingTasks := [],
    completedTasks := [], suspended := [] }

/-! ## Heap access -/

/-- The array behind reference `a` (empty for a dangling reference, which no
reachable state holds). -/
def State.readArray (st : State) (a : Nat) : List Turn := st.arrays.getD a []

/-- The current contents of `session.history` for the session object `r`. -/
def State.historyOf (st : State) (r : Nat) : List Turn :=
  match st.objects[r]? with
  | some o => st.readArray o.history
  | none => []

/-- The assignment `session.lastActive = t` on the session object `r`. -/
def State.setLastActive (st : State) (r : Nat) (t : Nat) : State :=
  match st.objects[r]? with
  | some o => { st with objects := st.objects.set r { o with lastActive := t } }
  | none => st

/-- Model of `xs.slice(-n)`. -/
def sliceLast (n : Nat) (xs : List Turn) : List Turn := xs.drop (xs.length - n)

/-- The operand `v || d` for a string-or-undefined `v`. -/
def orElse (v : Option JsString) (d : JsString) : JsString :=
  match v with
  | some s => if s.isEmpty then d else s
  | none => d

/-- The difference `now - startedAt` of two dates; `none` is `NaN`. -/
def elapsed (now : Nat) (startedAt : Option Nat) : Option Int :=
  match startedAt with
  | some t => some ((now : Int) - (t : Int))
  | none => none

/-! ## `validateChatRequest` (bot_routes.js) -/

/-- The string behind a value for which `typeof v === "string"` holds. -/
def JsVal.str : JsVal → JsString
  | .string s => s
  | _ => []

/-- An answer `res.status(code).json(body)`; `res.json(body)` has code 200. -/
structure Http (β : Type) where
  code : Nat
  body : β
deriving DecidableEq, Repr

/-- The body `{ success, error, message }` of a refusal. -/
structure ErrorBody where
  success : Bool
  error : String
  message : String
deriving DecidableEq, Repr

/-- Outcome of the middleware: it calls `next()` or answers itself. -/
inductive Validation where
  | next
  | reject (reply : Http ErrorBody)
deriving DecidableEq, Repr

/-- Model of `validateChatRequest`. -/
def validateChatRequest (body : ChatBody) : Validation :=
  if !body.message.truthy || !body.message.isString then
    .reject ⟨400, false, "Validation Error",
      "Message field is required and must be a string"⟩
  else if (trim body.message.str).length = 0 then
    .reject ⟨400, false, "Validation Error", "Message cannot be empty"⟩
  else if body.message.str.length > 1000 then
    .reject ⟨400, false, "Validation Error", "Message must be less than 1000 characters"⟩
  else
    .next

/-! ## `BotController` -/

/-- Model of `getSession`; the two dates are those of the object literal. -/
def getSession (st : State) (sessionId : JsString) (createdAt lastActive : Nat) :
    State × Nat :=
  match st.sessions.get sessionId with
  | some r => (st, r)
  | none =>
    let r := st.objects.length
    ({ st with
        arrays := st.arrays ++ [[]]
        objects := st.objects ++
          [{ id := sessionId, history := st.arrays.length, createdAt := createdAt,
             lastActive := lastActive }]
        sessions := st.sessions.set sessionId r }, r)

/-- The statements shared by `processTask` (lines 170-177) and `chat`
(lines 52-59): push the user turn and the model turn on `session.history`,
then replace the array by its last 20 entries when it has more than 20. -/
def pushAndTrim (st : State) (r : Nat) (userText : JsString)
    (modelText : Option JsString) : State :=
  match st.objects[r]? with
  | none => st
  | some o =>
    let pushed := st.readArray o.history ++
      [{ role := .user, text := some userText }, { role := .model, text := modelText }]
    let st1 := { st with arrays := st.arrays.set o.history pushed }
    if pushed.length > 20 then
      { st1 with
          arrays := st1.arrays ++ [sliceLast 20 pushed]
          objects := st1.objects.set r { o with history := st1.arrays.length } }
    else st1

/-- Dates read by the part of `processTask` before the `await`. -/
structure StartEnv where
  startedAt : Nat
  createdAt : Nat
  lastActive : Nat
deriving DecidableEq, Repr

/-- The assignments `task.status = "processing"; task.startedAt = new Date()`. -/
def Task.start (task : Task) (startedAt : Nat) : Task :=
  { task with status := .processing, startedAt := some startedAt }

/-- Model of `processTask` up to `await geminiService.generateResponse(...)`:
the task is marked `processing`, the session object is looked up and the
generator is called with the task's message and history. -/
def processTaskStart (st : State) (taskId : JsString) (env : StartEnv) : State :=
  match st.pendingTasks.get taskId with
  | none => st
  | some task =>
    let task1 := task.start env.startedAt
    let st1 := { st with pendingTasks := st.pendingTasks.set taskId task1 }
    let (st2, r) := getSession st1 task1.sessionId env.createdAt env.lastActive
    { st2 with
        suspended := st2.suspended ++
          [.task taskId task1 r
            { userMessage := task1.message, chatHistory := st2.readArray task1.history }] }

/-- Dates read when a suspended call is resumed. -/
structure SettleEnv where
  lastActive : Nat
  completedAt : Nat
  timestamp : Nat
  finishedAt : Nat
deriving DecidableEq, Repr

/-- The record `{ ...task, status: "completed", completedAt, response,
processingTime }` written by the `try` block of `processTask`. -/
def Task.complete (task : Task) (response : GenResult) (env : SettleEnv) : Task :=
  { task with
      status := .completed
      completedAt := some env.completedAt
      response := some
        { success := response.success
          message := orElse response.message (lit "Sorry, I could not generate a response.")
          modelUsed := orElse response.model (lit "unknown")
          timestamp := env.timestamp }
      processingTime := elapsed env.finishedAt task.startedAt }

/-- The record `{ ...task, status: "failed", completedAt, error, processingTime }`
written by the `catch` block of `processTask`. -/
def Task.fail (task : Task) (errorMessage : Option JsString) (env : SettleEnv) : Task :=
  { task with
      status := .failed
      completedAt := some env.completedAt
      error := some errorMessage
      processingTime := elapsed env.finishedAt task.startedAt }

/-- Model of `processTask` from the `await` on, for the captured `task` and
`session`: the rest of the `try` block when the generator resolved, the `catch`
block when it rejected. -/
def processTaskResume (st : State) (taskId : JsString) (task : Task) (session : Nat)
    (outcome : Outcome) (env : SettleEnv) : State :=
  match outcome with
  | .returned response =>
    let st1 :=
      if response.success then
        (pushAndTrim st session task.message response.message).setLastActive session
          env.lastActive
      else st
    let st2 := { st1 with pendingTasks := st1.pendingTasks.delete taskId }
    { st2 with completedTasks := st2.completedTasks.set taskId (task.complete response env) }
  | .threw errorMessage =>
    match st.pendingTasks.get taskId with
    | some task1 =>
      let st1 := { st with pendingTasks := st.pendingTasks.delete taskId }
      { st1 with
          completedTasks := st1.completedTasks.set taskId (task1.fail errorMessage env) }
    | none => st

/-- Values read by `submitMessage`: `Date.now()` for the default session id,
the dates of `getSession`, of `session.lastActive`, of the task literal and of
the reply, the result of `uuidv4()`, and the dates of the `processTask` call. -/
structure SubmitEnv where
  dateNow : Nat
  createdAt : Nat
  createdLastActive : Nat
  lastActive : Nat
  uuid : JsString
  submittedAt : Nat
  start : StartEnv
  timestamp : Nat
deriving DecidableEq, Repr

/-- The JSON bodies sent by `submitMessage`. -/
inductive SubmitBody where
  | invalid (e : ErrorBody)
  | accepted (success : Bool) (taskId : JsString) (sessionId : JsString)
      (status : String) (message : String) (timestamp : Nat) (checkStatusAt : JsString)
deriving DecidableEq, Repr

/-- The test `!message || typeof message !== "string" || message.trim().length === 0`
of `submitMessage` and `chat`. -/
def invalidMessage (message : JsVal) : Bool :=
  !message.truthy || !message.isString || (trim message.str).length = 0

/-- The session id of a body: `sessionId = session_<Date.now()>` by default. -/
def sessionIdOf (body : ChatBody) (dateNow : Nat) : JsString :=
  body.sessionId.getD (lit ("session_" ++ toString dateNow))

/-- The task object literal of `submitMessage`; `history` is the reference of
the fresh array `[...session.history]`. -/
def newTask (taskId sessionId message : JsString) (submittedAt history : Nat) : Task :=
  { id := taskId, sessionId := sessionId, message := message, status := .pending,
    submittedAt := submittedAt, history := history, startedAt := none,
    completedAt := none, response := none, error := none, processingTime := none }

/-- Model of `submitMessage`, for a request whose body is an object. The call
`this.processTask(taskId)` runs up to its `await` before the reply is sent. -/
def submitMessage (st : State) (body : ChatBody) (env : SubmitEnv) :
    State × Http SubmitBody :=
  let sessionId := sessionIdOf body env.dateNow
  if invalidMessage body.message then
    (st, ⟨400, .invalid ⟨false, "Invalid request",
      "Message is required and must be a non-empty string"⟩⟩)
  else
    let message := body.message.str
    let (st1, r) := getSession st sessionId env.createdAt env.createdLastActive
    let st2 := st1.setLastActive r env.lastActive
    let taskId := env.uuid
    let st3 := { st2 with
      arrays := st2.arrays ++ [st2.historyOf r]
      pendingTasks := st2.pendingTasks.set taskId
        (newTask taskId sessionId message env.submittedAt st2.arrays.length) }
    let st4 := processTaskStart st3 taskId env.start
    (st4, ⟨200, .accepted true taskId sessionId "processing"
      "Your request is being processed" env.timestamp
      (lit "/api/bot/response/" ++ taskId)⟩)

/-- Values read by `chat` before its `await`. -/
structure ChatEnv where
  dateNow : Nat
  createdAt : Nat
  createdLastActive : Nat
  lastActive : Nat
deriving DecidableEq, Repr

/-- The JSON bodies sent by `chat`. -/
inductive ChatReplyBody where
  | invalid (e : ErrorBody)
  | answer (success : Bool) (sessionId : JsString) (botName : String)
      (response : JsString) (timestamp : Nat) (sessionActivity : Nat)
      (messageCount : Nat) (modelUsed : JsString)
  | failure (success : Bool) (error : String) (message : JsString) (timestamp : Nat)
deriving DecidableEq, Repr

/-- Model of `chat` up to `await geminiService.generateResponse(...)`, for a
request whose body is an object: either the 400 answer or a suspended call. -/
def chatStart (st : State) (body : ChatBody) (env : ChatEnv) :
    State × Option (Http ChatReplyBody) :=
  let sessionId := sessionIdOf body env.dateNow
  if invalidMessage body.message then
    (st, some ⟨400, .invalid ⟨false, "Invalid request",
      "Message is required and must be a non-empty string"⟩⟩)
  else
    let message := body.message.str
    let (st1, r) := getSession st sessionId env.createdAt env.createdLastActive
    let st2 := st1.setLastActive r env.lastActive
    ({ st2 with
        suspended := st2.suspended ++
          [.chat message sessionId r
            { userMessage := message, chatHistory := st2.historyOf r }] }, none)

/-- The value of `session.lastActive` for the session object `r`. -/
def State.lastActiveOf (st : State) (r : Nat) : Nat :=
  match st.objects[r]? with
  | some o => o.lastActive
  | none => 0

/-- Model of `chat` from the `await` on. `messageCount` is
`session.history.length / 2`, a whole number as history lengths are even. -/
def chatResume (st : State) (message sessionId : JsString) (session : Nat)
    (outcome : Outcome) (env : SettleEnv) : State × Http ChatReplyBody :=
  match outcome with
  | .returned response =>
    let st1 :=
      if response.success then pushAndTrim st session message response.message else st
    (st1, ⟨200, .answer response.success sessionId "PanAI Sage"
      (orElse response.message (lit "Sorry, I could not generate a response."))
      env.timestamp (st1.lastActiveOf session) ((st1.historyOf session).length / 2)
      (orElse response.model (lit "unknown"))⟩)
  | .threw errorMessage =>
    (st, ⟨500, .failure false "Internal server error"
      (orElse errorMessage (lit "Failed to process your request")) env.timestamp⟩)

/-- The JSON bodies sent by `getResponse`. -/
inductive StatusBody where
  | completed (success : Bool) (taskId : JsString) (sessionId : JsString)
      (status : Status) (response : Option TaskResponse) (submittedAt : Nat)
      (completedAt : Option Nat) (processingTime : Option Int)
  | pending (success : Bool) (taskId : JsString) (sessionId : JsString)
      (status : Status) (message : String) (submittedAt : Nat) (estimatedWait : String)
  | notFound (success : Bool) (error : String) (message : String) (taskId : JsString)
deriving DecidableEq, Repr

/-- Model of `getResponse`; it writes nothing. `has` followed by `get` on the
same key is one lookup. -/
def getResponse (st : State) (taskId : JsString) : Http StatusBody :=
  match st.completedTasks.get taskId with
  | some completedTask =>
    ⟨200, .completed true taskId completedTask.sessionId completedTask.status
      completedTask.response completedTask.submittedAt completedTask.completedAt
      completedTask.processingTime⟩
  | none =>
    match st.pendingTasks.get taskId with
    | some pendingTask =>
      ⟨200, .pending true taskId pendingTask.sessionId pendingTask.status
        "Your request is still being processed" pendingTask.submittedAt "10-30 seconds"⟩
    | none =>
      ⟨404, .notFound false "Task not found" "The task ID does not exist or has expired"
        taskId⟩

/-- One entry of the `sessions` list of `getActiveSessions`. -/
structure SessionSummary where
  id : JsString
  messageCount : Nat
  createdAt : Nat
  lastActive : Nat
  active : Bool
deriving DecidableEq, Repr

/-- The callback of `getActiveSessions` on the entries from position `i` on;
`now i` is the date read for entry `i`. -/
def sessionSummaries (st : State) (now : Nat → Nat) : Nat → JsMap Nat → List SessionSummary
  | _, [] => []
  | i, (id, r) :: rest =>
    (match st.objects[r]? with
      | some o =>
        { id := id, messageCount := (st.readArray o.history).length / 2,
          createdAt := o.createdAt, lastActive := o.lastActive,
          active := decide (((now i : Nat) : Int) - (o.lastActive : Int) < 300000) }
      | none => { id := id, messageCount := 0, createdAt := 0, lastActive := 0,
                  active := false }) :: sessionSummaries st now (i + 1) rest

/-- The JSON body sent by `getActiveSessions`. -/
structure SessionsBody where
  totalSessions : Nat
  activeSessions : Nat
  sessions : List SessionSummary
deriving DecidableEq, Repr

/-- Model of `getActiveSessions`; it writes nothing. -/
def getActiveSessions (st : State) (now : Nat → Nat) : Http SessionsBody :=
  let sessions := sessionSummaries st now 0 st.sessions
  ⟨200, { totalSessions := st.sessions.size,
          activeSessions := (sessions.filter (fun s => s.active)).length,
          sessions := sessions }⟩

/-- One entry of the `tasks` list of `getPendingTasks`. -/
structure TaskSummary where
  id : JsString
  sessionId : JsString
  status : Status
  submittedAt : Nat
  messagePreview : JsString
deriving DecidableEq, Repr

/-- The JSON body sent by `getPendingTasks`. -/
structure PendingBody where
  totalPending : Nat
  tasks : List TaskSummary
deriving DecidableEq, Repr

/-- Model of `getPendingTasks`; it writes nothing. -/
def getPendingTasks (st : State) : Http PendingBody :=
  ⟨200, { totalPending := st.pendingTasks.size,
          tasks := st.pendingTasks.map (fun e =>
            { id := e.1, sessionId := e.2.sessionId, status := e.2.status,
              submittedAt := e.2.submittedAt,
              messagePreview := e.2.message.take 50 ++ lit "..." }) }⟩

/-- The JSON bodies sent by `clearSession`. -/
inductive ClearBody where
  | all (message : JsString) (sessionsCleared : Nat)
  | one (message : String) (sessionId : JsString)
  | notFound (error : String)
deriving DecidableEq, Repr

/-- Model of `clearSession`. -/
def clearSession (st : State) (sessionId : JsString) : State × Http ClearBody :=
  if sessionId = lit "all" then
    let count := st.sessions.size
    ({ st with sessions := [] },
      ⟨200, .all (lit ("Cleared all " ++ toString count ++ " sessions")) count⟩)
  else if st.sessions.has sessionId then
    ({ st with sessions := st.sessions.delete sessionId },
      ⟨200, .one "Session cleared successfully" sessionId⟩)
  else
    (st, ⟨404, .notFound "Session not found"⟩)

/-! ## `GeminiService` (gemini.service.js) -/

/-- The UTF-16 code units of a literal: a character outside the Basic
Multilingual Plane becomes its surrogate pair. -/
def utf16 (s : String) : JsString :=
  s.toList.flatMap fun c =>
    if c.toNat < 0x10000 then [c.toNat]
    else [0xD800 + (c.toNat - 0x10000) / 0x400, 0xDC00 + (c.toNat - 0x10000) % 0x400]

/-- Test whether `s` begins with the code units of `p`. -/
def startsWith : JsString → JsString → Bool
  | _, [] => true
  | [], _ :: _ => false
  | a :: s, b :: p => decide (a = b) && startsWith s p

/-- Model of `s.includes(p)`: `p` occurs in `s` at some position. -/
def includes : JsString → JsString → Bool
  | [], p => startsWith [] p
  | a :: s, p => startsWith (a :: s) p || includes s p

/-- The answer of the rule on `what is` and `panafrican ai summit`. -/
def answerWhatIs : JsString :=
  utf16
   ("🌍 The PanAfrican AI Summit is an annual event that started in 2025 with the " ++
    "mission to \"Bridge Africa\x27s AI Divide.\" It brings together AI innovators " ++
    "from across Africa to collaborate on solutions tailored to the continent\x27s " ++
    "unique challenges and opportunities!")

/-- The answer of the rule on `mission` or `purpose`. -/
def answerMission : JsString :=
  utf16
   ("🎯 The summit aims to accelerate Africa\x27s AI ecosystem by fostering " ++
    "collaboration, knowledge sharing, and innovation across the continent while " ++
    "ensuring ethical and inclusive AI development that addresses Africa-specific " ++
    "needs.")

/-- The answer of the rule on `participat`, `join` or `attend`. -/
def answerParticipation : JsString :=
  utf16
   ("🤝 The summit welcomes researchers, startups, policymakers, students, and " ++
    "investors from all African regions! Participation is open to anyone interested " ++
    "in advancing AI in Africa. The event features sessions in multiple languages " ++
    "including English, French, Arabic, Swahili, and Portuguese.")

/-- The answer of the rule on `pillar` or `focus`. -/
def answerPillars : JsString :=
  utf16
   ("🔬 The summit focuses on 5 key pillars: \n1. AI Research & Development\n2. AI " ++
    "Education & Capacity Building  \n3. AI Policy & Governance\n4. AI " ++
    "Entrepreneurship & Investment\n5. AI for Social Good")

/-- The answer of the rule on `contact` or `website`. -/
def answerContact : JsString :=
  utf16
   ("📧 For more information, you can visit the official website or contact the " ++
    "organizers at info@panafricanaisummit.africa")

/-- The answer when no rule matches. -/
def answerGreeting : JsString :=
  utf16
   ("🤖 Hello! I\x27m PanAI Sage, your guide to the PanAfrican AI Summit. I\x27m here " ++
    "to answer questions about the summit\x27s mission, pillars, participation, and " ++
    "initiatives. What would you like to know about? 🌍")

/-- Model of `getStaticResponse`. The parameter `toLowerCase` stands for
`String.prototype.toLowerCase`, whose Unicode case tables are not part of the
repository. -/
def getStaticResponse (toLowerCase : JsString → JsString) (userMessage : JsString) :
    JsString :=
  let lowerMessage := toLowerCase userMessage
  if includes lowerMessage (lit "what is") &&
      includes lowerMessage (lit "panafrican ai summit") then
    answerWhatIs
  else if includes lowerMessage (lit "mission") || includes lowerMessage (lit "purpose") then
    answerMission
  else if includes lowerMessage (lit "participat") || includes lowerMessage (lit "join") ||
      includes lowerMessage (lit "attend") then
    answerParticipation
  else if includes lowerMessage (lit "pillar") || includes lowerMessage (lit "focus") then
    answerPillars
  else if includes lowerMessage (lit "contact") || includes lowerMessage (lit "website") then
    answerContact
  else
    answerGreeting

/-- The array `fallbackModels` of `tryFallbackModel`. -/
def fallbackModels : List JsString := [lit "gemini-1.5-flash", lit "gemini-1.0-pro"]

/-- The `for` loop of `tryFallbackModel` over the models still to try.
`generateContent model` is how the call `this.ai.models.generateContent` for
that model ends: `none` when it throws, `some text` when it resolves to a
response whose `text` is `text`. The result is `none` when the loop runs out. -/
def tryModels (generateContent : JsString → Option (Option JsString)) (now : Nat) :
    List JsString → Option GenResult
  | [] => none
  | model :: rest =>
    match generateContent model with
    | some text =>
      some { success := true, message := text, timestamp := now, model := some model,
             isFallback := some true, error := none, details := none }
    | none => tryModels generateContent now rest

/-- Model of `tryFallbackModel`; `now` is the date of the result object. -/
def tryFallbackModel (generateContent : JsString → Option (Option JsString))
    (toLowerCase : JsString → JsString) (userMessage : JsString) (now : Nat) : GenResult :=
  match tryModels generateContent now fallbackModels with
  | some result => result
  | none =>
    { success := true, message := some (getStaticResponse toLowerCase userMessage),
      timestamp := now, model := some (lit "static-fallback"), isFallback := none,
      error := none, details := none }

/-- One keyword rule: the test on the lower-cased text and the answer. -/
structure KeywordRule where
  test : JsString → Bool
  answer : JsString

/-- The keyword rules in their fixed order, as the specification lists them. -/
def keywordRules : List KeywordRule :=
  [ { test := fun t => includes t (lit "what is") && includes t (lit "panafrican ai summit")
      answer := answerWhatIs },
    { test := fun t => includes t (lit "mission") || includes t (lit "purpose")
      answer := answerMission },
    { test := fun t =>
        includes t (lit "participat") || includes t (lit "join") || includes t (lit "attend")
      answer := answerParticipation },
    { test := fun t => includes t (lit "pillar") || includes t (lit "focus")
      answer := answerPillars },
    { test := fun t => includes t (lit "contact") || includes t (lit "website")
      answer := answerContact } ]

/-- The answer of the first rule of the list that matches the text, and the
generic greeting when none does. -/
def firstMatch : List KeywordRule → JsString → JsString
  | [], _ => answerGreeting
  | rule :: rest, text => if rule.test text then rule.answer else firstMatch rest text

/-- Lower-casing of the letters `A` to `Z`; on a text of ASCII characters this
is what `toLowerCase` gives. -/
def asciiLower (s : JsString) : JsString :=
  s.map fun c => if 65 ≤ c ∧ c ≤ 90 then c + 32 else c

/-! ## Runs of the controller -/

/-- What can happen to the controller: a request reaches a handler, or an
awaited generator call settles and the suspended method at position `i` of
`State.suspended` runs on. -/
inductive Op where
  | submitMessage (body : ChatBody) (env : SubmitEnv)
  | chat (body : ChatBody) (env : ChatEnv)
  | settle (i : Nat) (outcome : Outcome) (env : SettleEnv)
  | getResponse (taskId : JsString)
  | getActiveSessions (now : Nat → Nat)
  | getPendingTasks
  | clearSession (sessionId : JsString)

/-- Resume the suspended call `k`. -/
def resume (st : State) (k : Suspended) (outcome : Outcome) (env : SettleEnv) : State :=
  match k with
  | .task taskId task session _ => processTaskResume st taskId task session outcome env
  | .chat message sessionId session _ =>
    (chatResume st message sessionId session outcome env).1

/-- The generator call at position `i` settles: the call leaves the list of
suspended calls and its method runs on. -/
def settle (st : State) (i : Nat) (outcome : Outcome) (env : SettleEnv) : State :=
  match st.suspended[i]? with
  | some k => resume { st with suspended := st.suspended.eraseIdx i } k outcome env
  | none => st

/-- The controller after one operation. -/
def step (st : State) : Op → State
  | .submitMessage body env => (submitMessage st body env).1
  | .chat body env => (chatStart st body env).1
  | .settle i outcome env => settle st i outcome env
  | .getResponse _ => st
  | .getActiveSessions _ => st
  | .getPendingTasks => st
  | .clearSession sessionId => (clearSession st sessionId).1

/-- The controller after a sequence of operations. -/
def run (st : State) (ops : List Op) : State := ops.foldl step st

/-- The task ids handed out by `uuidv4()` during a sequence of operations: one
for every submission that passes the check of `submitMessage`. -/
def issuedIds : List Op → List JsString
  | [] => []
  | .submitMessage body env :: ops =>
    if invalidMessage body.message then issuedIds ops else env.uuid :: issuedIds ops
  | _ :: ops => issuedIds ops

/-- The operation is a `clearSession` that removes the session `sid`: its
parameter is `sid` or `all`. -/
def Op.clears (sid : JsString) : Op → Bool
  | .clearSession sessionId => decide (sessionId = lit "all") || decide (sessionId = sid)
  | _ => false

/-! ## Invariants -/

/-- The heaps are consistent: every session object refers to an allocated
array, no two session objects share an array, and the array of every session
object has an even length of at most 20. -/
structure HeapOK (st : State) : Prop where
  objHist : ∀ (r : Nat) (o : Session), st.objects[r]? = some o → o.history < st.arrays.length
  objInj : ∀ (r1 r2 : Nat) (o1 o2 : Session), st.objects[r1]? = some o1 → st.objects[r2]? = some o2 →
    o1.history = o2.history → r1 = r2
  evenCap : ∀ (r : Nat) (o : Session), st.objects[r]? = some o →
    (st.readArray o.history).length % 2 = 0 ∧ (st.readArray o.history).length ≤ 20

/-- The array `a` is allocated and is the `history` of no session object. -/
def Detached (st : State) (a : Nat) : Prop :=
  a < st.arrays.length ∧ ∀ (r : Nat) (o : Session), st.objects[r]? = some o → o.history ≠ a

/-- What a piece of handler code does to the heaps when it takes `st` to
`st1`: consistency is kept, no session object is freed, and an array that no
session object refers to is neither written nor handed to a session object. -/
structure HeapStep (st st1 : State) : Prop where
  ok : HeapOK st1
  mono : st.objects.length ≤ st1.objects.length
  frame : ∀ a, Detached st a → Detached st1 a ∧ st1.readArray a = st.readArray a

/-- The session reference captured by a suspended call. -/
def Suspended.session : Suspended → Nat
  | .task _ _ session _ => session
  | .chat _ _ session _ => session

/-- The user text a suspended call pushes on the history: `task.message` in
`processTask`, `message` in `chat`. -/
def Suspended.message : Suspended → JsString
  | .task _ t _ _ => t.message
  | .chat m _ _ _ => m

/-- Every reference to a session object, from the session map or from a
suspended call, is allocated. -/
structure RefsOK (st : State) : Prop where
  sessRef : ∀ (sid : JsString) (r : Nat), (sid, r) ∈ st.sessions → r < st.objects.length
  suspRef : ∀ k : Suspended, k ∈ st.suspended → k.session < st.objects.length

/-- The task ids of the suspended `processTask` calls. -/
def taskIds : List Suspended → List JsString
  | [] => []
  | .task taskId _ _ _ :: ks => taskId :: taskIds ks
  | .chat _ _ _ _ :: ks => taskIds ks

/-- How one operation changes the task maps and the suspended calls when it
takes `st` to `st1`; the last index lists the task ids it hands out. -/
inductive TaskEffect (st st1 : State) : List JsString → Prop where
  | same (hp : st1.pendingTasks = st.pendingTasks)
      (hc : st1.completedTasks = st.completedTasks)
      (hs : st1.suspended = st.suspended) : TaskEffect st st1 []
  | chatStarted (m sid : JsString) (r : Nat) (c : GenCall)
      (hp : st1.pendingTasks = st.pendingTasks)
      (hc : st1.completedTasks = st.completedTasks)
      (hs : st1.suspended = st.suspended ++ [.chat m sid r c]) : TaskEffect st st1 []
  | chatSettled (i : Nat) (m sid : JsString) (r : Nat) (c : GenCall)
      (hk : st.suspended[i]? = some (.chat m sid r c))
      (hp : st1.pendingTasks = st.pendingTasks)
      (hc : st1.completedTasks = st.completedTasks)
      (hs : st1.suspended = st.suspended.eraseIdx i) : TaskEffect st st1 []
  | submitted (id : JsString) (t : Task) (r : Nat) (c : GenCall)
      (ht : t.status = .processing)
      (hp : st1.pendingTasks = st.pendingTasks.set id t)
      (hc : st1.completedTasks = st.completedTasks)
      (hs : st1.suspended = st.suspended ++ [.task id t r c]) : TaskEffect st st1 [id]
  | finished (i : Nat) (id : JsString) (t : Task) (r : Nat) (c : GenCall) (rec : Task)
      (env : SettleEnv)
      (hk : st.suspended[i]? = some (.task id t r c))
      (hrec : (∃ response, rec = t.complete response env) ∨
        ∃ t1 msg, st.pendingTasks.get id = some t1 ∧ rec = t1.fail msg env)
      (hp : st1.pendingTasks = st.pendingTasks.delete id)
      (hc : st1.completedTasks = st.completedTasks.set id rec)
      (hs : st1.suspended = st.suspended.eraseIdx i) : TaskEffect st st1 []
  | dropped (i : Nat) (id : JsString) (t : Task) (r : Nat) (c : GenCall)
      (hk : st.suspended[i]? = some (.task id t r c))
      (hn : st.pendingTasks.get id = none)
      (hp : st1.pendingTasks = st.pendingTasks)
      (hc : st1.completedTasks = st.completedTasks)
      (hs : st1.suspended = st.suspended.eraseIdx i) : TaskEffect st st1 []

/-- Every task id in the completed map or held by a suspended `processTask`
call is one of `ids`. -/
structure Issued (st : State) (ids : List JsString) : Prop where
  completed : ∀ (id : JsString) (t : Task), st.completedTasks.get id = some t → id ∈ ids
  suspended : ∀ id : JsString, id ∈ taskIds st.suspended → id ∈ ids

/-- A task id is pending exactly while its `processTask` call is suspended, no
two suspended calls share a task id, and a completed task id has no suspended
call. -/
structure Exclusive (st : State) : Prop where
  nodup : (taskIds st.suspended).Nodup
  pending : ∀ id : JsString, st.pendingTasks.has id = true ↔ id ∈ taskIds st.suspended
  completed : ∀ (id : JsString) (t : Task), st.completedTasks.get id = some t →
    id ∉ taskIds st.suspended

/-- Every record of the pending map has status `processing`. -/
def PendingProcessing (st : State) : Prop :=
  ∀ (id : JsString) (t : Task), st.pendingTasks.get id = some t → t.status = .processing

/-- A terminal status. -/
def Status.terminal (s : Status) : Prop := s = .completed ∨ s = .failed

/-- The task id is pending, or it is completed with a terminal status. -/
def Accounted (st : State) (id : JsString) : Prop :=
  st.pendingTasks.has id = true ∨
    ∃ rec : Task, st.completedTasks.get id = some rec ∧ rec.status.terminal

/-- The history of the session `sid` as `getSession` would find it: that of
the session object in the map, or the empty history of the object it creates. -/
def sessionHistory (st : State) (sid : JsString) : List Turn :=
  match st.sessions.get sid with
  | some r => st.historyOf r
  | none => []

/-- The array `a` holds `h`, no session object refers to it, and every record
of task `id`, in the maps or captured by a suspended call, has `a` as its
history; the generator call of the task was given `h`. -/
structure SnapshotKept (st : State) (id : JsString) (a : Nat) (h : List Turn) : Prop where
  detached : Detached st a
  content : st.readArray a = h
  pending : ∀ t : Task, st.pendingTasks.get id = some t → t.history = a
  completed : ∀ t : Task, st.completedTasks.get id = some t → t.history = a
  suspended : ∀ (t : Task) (r : Nat) (c : GenCall), Suspended.task id t r c ∈ st.suspended →
    t.history = a ∧ c.chatHistory = h
  held : st.pendingTasks.has id = true ∨ st.completedTasks.has id = true

/-! ## Sample values -/

/-- A request `{ message: "hi", sessionId: "s1" }`. -/
def sampleBody : ChatBody := ⟨.string (lit "hi"), some (lit "s1")⟩

/-- Readings for a submission that is given the task id `t1`. -/
def sampleSubmitEnv : SubmitEnv :=
  { dateNow := 1000, createdAt := 1000, createdLastActive := 1000, lastActive := 1001,
    uuid := lit "t1", submittedAt := 1002,
    start := { startedAt := 1003, createdAt := 1003, lastActive := 1003 },
    timestamp := 1004 }

/-- Readings for the resumption of a suspended call. -/
def sampleSettleEnv : SettleEnv :=
  { lastActive := 2000, completedAt := 2001, timestamp := 2002, finishedAt := 2003 }

/-- A successful result of the generator. -/
def sampleSuccess : GenResult :=
  { success := true, message := some (lit "hello"), model := some (lit "gemini-2.5-flash"),
    isFallback := none, error := none, details := none, timestamp := 1500 }

/-- The failure result of `generateResponse` (its `catch` block). -/
def sampleFailure : GenResult :=
  { success := false, message := none, model := none, isFallback := none,
    error := some (lit "Failed to generate response"), details := some (lit "quota"),
    timestamp := 1500 }

/-- The controller inside the first `submitMessage`, right before the call
`this.processTask(taskId)`: task `t1` is pending and no call is suspended. -/
def sampleBeforeProcess : State :=
  { arrays := [[], []]
    objects := [{ id := lit "s1", history := 0, createdAt := 1000, lastActive := 1001 }]
    sessions := [(lit "s1", 0)]
    pendingTasks := [(lit "t1", newTask (lit "t1") (lit "s1") (lit "hi") 1002 1)]
    completedTasks := []
    suspended := [] }

/-- The result of `tryFallbackModel` when the first fallback model answers. -/
def sampleFallback : GenResult :=
  tryFallbackModel (fun _ => some (some (lit "hello"))) asciiLower (lit "hi") 1500

/-- One submission, not yet answered by the generator. -/
def sampleSubmitted : List Op := [.submitMessage sampleBody sampleSubmitEnv]

/-- Readings for a later submission that is given the task id `t2`. -/
def sampleSubmitEnv2 : SubmitEnv :=
  { dateNow := 3000, createdAt := 3000, createdLastActive := 3000, lastActive := 3001,
    uuid := lit "t2", submittedAt := 3002,
    start := { startedAt := 3003, createdAt := 3003, lastActive := 3003 },
    timestamp := 3004 }

/-- Readings for a later submission that is given the task id `t3`. -/
def sampleSubmitEnv3 : SubmitEnv :=
  { dateNow := 4000, createdAt := 4000, createdLastActive := 4000, lastActive := 4001,
    uuid := lit "t3", submittedAt := 4002,
    start := { startedAt := 4003, createdAt := 4003, lastActive := 4003 },
    timestamp := 4004 }

/-- What happens to session `s1` while task `t2` waits for the generator: a
third task is submitted and answered first, then the session is cleared. -/
def sampleLater : List Op :=
  [.submitMessage sampleBody sampleSubmitEnv3,
   .settle 1 (.returned sampleSuccess)
     { lastActive := 5000, completedAt := 5001, timestamp := 5002, finishedAt := 5003 },
   .clearSession (lit "s1")]

/-- Readings for a `chat` request. -/
def sampleChatEnv : ChatEnv :=
  { dateNow := 6000, createdAt := 6000, createdLastActive := 6000, lastActive := 6001 }

/-- The `n`-th synchronous exchange on session `s1`: a `chat` request whose
message is the single code unit `48 + n`, answered with the code unit `97 + n`. -/
def sampleExchange (n : Nat) : List Op :=
  [.chat ⟨.string [48 + n], some (lit "s1")⟩ sampleChatEnv,
   .settle 0 (.returned { sampleSuccess with message := some [97 + n] }) sampleSettleEnv]

/-- Ten exchanges on session `s1`, then an eleventh `chat` request that waits
for the generator: the history of `s1` holds 20 entries. -/
def sampleFull : List Op :=
  (List.range 10).flatMap sampleExchange ++
    [.chat ⟨.string [58], some (lit "s1")⟩ sampleChatEnv]

/-- Task `t1` is submitted on session `s1`; while it waits for the generator
the session is cleared and created again by the submission of task `t2`. -/
def sampleCleared : List Op :=
  [.submitMessage sampleBody sampleSubmitEnv,
   .clearSession (lit "s1"),
   .submitMessage sampleBody sampleSubmitEnv2]

/-- One submission whose generator call then succeeds. -/
def sampleCompleted : List Op :=
  [.submitMessage sampleBody sampleSubmitEnv, .settle 0 (.returned sampleSuccess) sampleSettleEnv]

/-! ## Lemmas on maps -/

namespace JsMap

variable {α : Type}

theorem get_set (m : JsMap α) (k k' : JsString) (v : α) :
    (m.set k v).get k' = if k = k' then some v else m.get k' := by
  induction m with
  | nil => simp [set, get]
  | cons e m ih =>
    obtain ⟨a, b⟩ := e
    by_cases h : a = k
    · subst h
      by_cases h' : a = k' <;> simp [set, get, h']
    · by_cases h' : a = k'
      · subst h'
        have : ¬ k = a := fun e => h e.symm
        simp [set, get, h, this]
      · simp [set, get, h, h', ih]

theorem get_delete (m : JsMap α) (k k' : JsString) :
    (m.delete k).get k' = if k = k' then none else m.get k' := by
  induction m with
  | nil => simp [delete, get]
  | cons e m ih =>
    obtain ⟨a, b⟩ := e
    by_cases h : a = k
    · subst h
      by_cases h' : a = k'
      · subst h'
        simpa [delete, get] using ih
      · simp [delete, get, h', ih]
    · by_cases h' : a = k'
      · subst h'
        have : ¬ k = a := fun e => h e.symm
        simp [delete, get, h, this]
      · simp [delete, get, h, h', ih]

theorem mem_of_get (m : JsMap α) (k : JsString) (v : α) (h : m.get k = some v) :
    (k, v) ∈ m := by
  induction m with
  | nil => simp [get] at h
  | cons e m ih =>
    obtain ⟨a, b⟩ := e
    by_cases e : a = k
    · subst e
      simp only [get, if_true, Option.some.injEq] at h
      subst h
      exact List.mem_cons_self _ _
    · simp only [get, e, if_false] at h
      exact List.mem_cons_of_mem _ (ih h)

theorem mem_set (m : JsMap α) (k : JsString) (v : α) (e : JsString × α)
    (h : e ∈ m.set k v) : e = (k, v) ∨ e ∈ m := by
  induction m with
  | nil => simp only [set, List.mem_singleton] at h; exact Or.inl h
  | cons x m ih =>
    obtain ⟨a, b⟩ := x
    by_cases hk : a = k
    · simp only [set, hk, if_true, List.mem_cons] at h
      rcases h with h | h
      · exact Or.inl h
      · exact Or.inr (List.mem_cons_of_mem _ h)
    · simp only [set, hk, if_false, List.mem_cons] at h
      rcases h with h | h
      · exact Or.inr (h ▸ List.mem_cons_self _ _)
      · rcases ih h with h | h
        · exact Or.inl h
        · exact Or.inr (List.mem_cons_of_mem _ h)

theorem mem_delete (m : JsMap α) (k : JsString) (e : JsString × α)
    (h : e ∈ m.delete k) : e ∈ m := by
  induction m with
  | nil => simp [delete] at h
  | cons x m ih =>
    obtain ⟨a, b⟩ := x
    by_cases hk : a = k
    · simp only [delete, hk, if_true] at h
      exact List.mem_cons_of_mem _ (ih h)
    · simp only [delete, hk, if_false, List.mem_cons] at h
      rcases h with h | h
      · exact h ▸ List.mem_cons_self _ _
      · exact List.mem_cons_of_mem _ (ih h)

theorem has_eq_true_iff (m : JsMap α) (k : JsString) :
    m.has k = true ↔ ∃ v, m.get k = some v := by
  simp [has, Option.isSome_iff_exists]

theorem has_eq_false_iff (m : JsMap α) (k : JsString) :
    m.has k = false ↔ m.get k = none := by
  simp [has]

end JsMap

/-! ## Lemmas on `trim` -/

theorem dropWhile_eq_nil_of_forall (p : Nat → Bool) (l : List Nat)
    (h : ∀ c ∈ l.dropWhile p, p c = true) : l.dropWhile p = [] := by
  induction l with
  | nil => rfl
  | cons a l ih =>
    by_cases ha : p a = true
    · simp only [List.dropWhile_cons_of_pos ha] at h ⊢
      exact ih h
    · have h1 : (a :: l).dropWhile p = a :: l := List.dropWhile_cons_of_neg ha
      rw [h1] at h
      exact absurd (h a (List.mem_cons_self a l)) ha

theorem trim_length_eq_zero_iff (s : JsString) :
    (trim s).length = 0 ↔ ∀ c ∈ s, isTrimUnit c = true := by
  unfold trim
  rw [List.length_reverse, List.length_eq_zero, List.dropWhile_eq_nil_iff]
  constructor
  · intro h
    have h1 : s.dropWhile isTrimUnit = [] :=
      dropWhile_eq_nil_of_forall _ _ (fun c hc => h c (List.mem_reverse.mpr hc))
    exact List.dropWhile_eq_nil_iff.mp h1
  · intro h c hc
    have h1 : s.dropWhile isTrimUnit = [] := List.dropWhile_eq_nil_iff.mpr h
    rw [h1] at hc
    simp at hc

theorem invalidMessage_eq_false_iff (v : JsVal) :
    invalidMessage v = false ↔
      ∃ s, v = .string s ∧ ∃ c ∈ s, isTrimUnit c = false := by
  cases v with
  | string s =>
    have h := trim_length_eq_zero_iff s
    by_cases he : (trim s).length = 0
    · have h2 := h.mp he
      have : s = [] ∨ s ≠ [] := by tauto
      simp only [invalidMessage, JsVal.truthy, JsVal.isString, JsVal.str, he]
      simp
      intro c hc
      exact h2 c hc
    · have h2 : ¬ ∀ c ∈ s, isTrimUnit c = true := fun hh => he (h.mpr hh)
      have hne : s ≠ [] := by
        rintro rfl
        exact h2 (by simp)
      push_neg at h2
      obtain ⟨c, hc, hcf⟩ := h2
      simp only [invalidMessage, JsVal.truthy, JsVal.isString, JsVal.str, he]
      simp [hne]
      exact ⟨c, hc, by simpa using hcf⟩
  | _ => simp [invalidMessage, JsVal.truthy, JsVal.isString]

/-! ## Effect of the building blocks on each component of the state -/

theorem getSession_cases (st : State) (sid : JsString) (c l : Nat) :
    (∃ r, st.sessions.get sid = some r ∧ getSession st sid c l = (st, r)) ∨
    (st.sessions.get sid = none ∧
      getSession st sid c l =
        ({ st with
            arrays := st.arrays ++ [[]]
            objects := st.objects ++
              [{ id := sid, history := st.arrays.length, createdAt := c, lastActive := l }]
            sessions := st.sessions.set sid st.objects.length }, st.objects.length)) := by
  unfold getSession
  cases h : st.sessions.get sid with
  | some r => exact Or.inl ⟨r, rfl, rfl⟩
  | none => exact Or.inr ⟨rfl, rfl⟩

theorem getSession_sessions_get (st : State) (sid : JsString) (c l : Nat) :
    (getSession st sid c l).1.sessions.get sid = some (getSession st sid c l).2 := by
  rcases getSession_cases st sid c l with ⟨r, h1, h2⟩ | ⟨h1, h2⟩
  · rw [h2]; exact h1
  · rw [h2]; simp [JsMap.get_set]

theorem getSession_pendingTasks (st : State) (sid : JsString) (c l : Nat) :
    (getSession st sid c l).1.pendingTasks = st.pendingTasks := by
  rcases getSession_cases st sid c l with ⟨r, _, h2⟩ | ⟨_, h2⟩ <;> rw [h2]

theorem getSession_completedTasks (st : State) (sid : JsString) (c l : Nat) :
    (getSession st sid c l).1.completedTasks = st.completedTasks := by
  rcases getSession_cases st sid c l with ⟨r, _, h2⟩ | ⟨_, h2⟩ <;> rw [h2]

theorem getSession_suspended (st : State) (sid : JsString) (c l : Nat) :
    (getSession st sid c l).1.suspended = st.suspended := by
  rcases getSession_cases st sid c l with ⟨r, _, h2⟩ | ⟨_, h2⟩ <;> rw [h2]

theorem setLastActive_arrays (st : State) (r t : Nat) :
    (st.setLastActive r t).arrays = st.arrays := by
  unfold State.setLastActive; split <;> rfl

theorem setLastActive_sessions (st : State) (r t : Nat) :
    (st.setLastActive r t).sessions = st.sessions := by
  unfold State.setLastActive; split <;> rfl

theorem setLastActive_pendingTasks (st : State) (r t : Nat) :
    (st.setLastActive r t).pendingTasks = st.pendingTasks := by
  unfold State.setLastActive; split <;> rfl

theorem setLastActive_completedTasks (st : State) (r t : Nat) :
    (st.setLastActive r t).completedTasks = st.completedTasks := by
  unfold State.setLastActive; split <;> rfl

theorem setLastActive_suspended (st : State) (r t : Nat) :
    (st.setLastActive r t).suspended = st.suspended := by
  unfold State.setLastActive; split <;> rfl

theorem setLastActive_objects_length (st : State) (r t : Nat) :
    (st.setLastActive r t).objects.length = st.objects.length := by
  unfold State.setLastActive; split <;> simp

theorem setLastActive_objects_get (st : State) (r t r' : Nat) :
    (st.setLastActive r t).objects[r']? =
      (st.objects[r']?).map (fun o => if r = r' then { o with lastActive := t } else o) := by
  unfold State.setLastActive
  cases h : st.objects[r]? with
  | none =>
    by_cases e : r = r'
    · subst e; simp [h]
    · simp [e]
  | some o =>
    by_cases e : r = r'
    · subst e
      have hlt : r < st.objects.length := by
        rcases Nat.lt_or_ge r st.objects.length with hl | hl
        · exact hl
        · rw [List.getElem?_eq_none hl] at h; cases h
      simp [h, List.getElem?_set_self, hlt]
    · simp [e, List.getElem?_set_ne e]

theorem pushAndTrim_sessions (st : State) (r : Nat) (u : JsString) (m : Option JsString) :
    (pushAndTrim st r u m).sessions = st.sessions := by
  unfold pushAndTrim; split
  · rfl
  · dsimp only; split <;> rfl

theorem pushAndTrim_pendingTasks (st : State) (r : Nat) (u : JsString) (m : Option JsString) :
    (pushAndTrim st r u m).pendingTasks = st.pendingTasks := by
  unfold pushAndTrim; split
  · rfl
  · dsimp only; split <;> rfl

theorem pushAndTrim_completedTasks (st : State) (r : Nat) (u : JsString)
    (m : Option JsString) :
    (pushAndTrim st r u m).completedTasks = st.completedTasks := by
  unfold pushAndTrim; split
  · rfl
  · dsimp only; split <;> rfl

theorem pushAndTrim_suspended (st : State) (r : Nat) (u : JsString) (m : Option JsString) :
    (pushAndTrim st r u m).suspended = st.suspended := by
  unfold pushAndTrim; split
  · rfl
  · dsimp only; split <;> rfl

/-! ## Heap lemmas -/

theorem getElem?_snoc_eq_some {α : Type} (l : List α) (x y : α) (i : Nat) :
    (l ++ [x])[i]? = some y ↔ l[i]? = some y ∨ (i = l.length ∧ x = y) := by
  rw [List.getElem?_append]
  by_cases h : i < l.length
  · simp only [h, if_true]
    constructor
    · exact Or.inl
    · rintro (h1 | ⟨h1, _⟩)
      · exact h1
      · omega
  · simp only [h, if_false]
    have hn : l[i]? = none := List.getElem?_eq_none (by omega)
    by_cases e : i = l.length
    · subst e; simp [hn]
    · have : i - l.length ≠ 0 := by omega
      obtain ⟨n, hn'⟩ := Nat.exists_eq_succ_of_ne_zero this
      simp [hn, e, hn']

theorem getElem?_set_eq_some {α : Type} (l : List α) (x y : α) (i j : Nat) :
    (l.set i x)[j]? = some y ↔
      (i = j ∧ i < l.length ∧ x = y) ∨ (i ≠ j ∧ l[j]? = some y) := by
  rw [List.getElem?_set]
  by_cases e : i = j
  · subst e
    by_cases h : i < l.length <;> simp [h]
  · simp [e]

theorem lt_length_of_getElem? {α : Type} {l : List α} {i : Nat} {x : α}
    (h : l[i]? = some x) : i < l.length := by
  rcases Nat.lt_or_ge i l.length with hl | hl
  · exact hl
  · rw [List.getElem?_eq_none hl] at h; cases h

theorem readArray_eq (st : State) (a : Nat) : st.readArray a = (st.arrays[a]?).getD [] := by
  simp [State.readArray]

theorem HeapStep.of_eq {st st1 : State} (ha : st1.arrays = st.arrays)
    (ho : st1.objects = st.objects) (h : HeapOK st) : HeapStep st st1 := by
  refine ⟨⟨?_, ?_, ?_⟩, ?_, ?_⟩
  · intro r o hr; rw [ho] at hr; rw [ha]; exact h.objHist r o hr
  · intro r1 r2 o1 o2 h1 h2; rw [ho] at h1 h2; exact h.objInj r1 r2 o1 o2 h1 h2
  · intro r o hr; rw [ho] at hr
    simp only [State.readArray, ha]; exact h.evenCap r o hr
  · rw [ho]
  · intro a hd
    refine ⟨⟨?_, ?_⟩, ?_⟩
    · rw [ha]; exact hd.1
    · intro r o hr; rw [ho] at hr; exact hd.2 r o hr
    · simp only [State.readArray, ha]

theorem HeapStep.refl {st : State} (h : HeapOK st) : HeapStep st st :=
  HeapStep.of_eq rfl rfl h

theorem HeapStep.trans {st st1 st2 : State} (h1 : HeapStep st st1) (h2 : HeapStep st1 st2) :
    HeapStep st st2 := by
  refine ⟨h2.ok, Nat.le_trans h1.mono h2.mono, ?_⟩
  intro a hd
  have e1 := h1.frame a hd
  have e2 := h2.frame a e1.1
  exact ⟨e2.1, e2.2.trans e1.2⟩

/-- Allocating one more array. -/
theorem HeapStep.of_alloc {st st1 : State} (x : List Turn)
    (ha : st1.arrays = st.arrays ++ [x]) (ho : st1.objects = st.objects) (h : HeapOK st) :
    HeapStep st st1 := by
  have key : ∀ a, a < st.arrays.length → st1.readArray a = st.readArray a := by
    intro a hlt
    simp only [readArray_eq, ha, List.getElem?_append_left hlt]
  refine ⟨⟨?_, ?_, ?_⟩, ?_, ?_⟩
  · intro r o hr; rw [ho] at hr
    have := h.objHist r o hr
    rw [ha, List.length_append]; simp; omega
  · intro r1 r2 o1 o2 h1 h2; rw [ho] at h1 h2; exact h.objInj r1 r2 o1 o2 h1 h2
  · intro r o hr; rw [ho] at hr
    rw [key _ (h.objHist r o hr)]; exact h.evenCap r o hr
  · rw [ho]
  · intro a hd
    refine ⟨⟨?_, ?_⟩, key a hd.1⟩
    · rw [ha, List.length_append]; have := hd.1; omega
    · intro r o hr; rw [ho] at hr; exact hd.2 r o hr

theorem getSession_heapStep (st : State) (sid : JsString) (c l : Nat) (h : HeapOK st) :
    HeapStep st (getSession st sid c l).1 := by
  rcases getSession_cases st sid c l with ⟨r, _, h2⟩ | ⟨_, h2⟩
  · rw [h2]; exact HeapStep.refl h
  · rw [h2]
    have key : ∀ a, a < st.arrays.length →
        (st.arrays ++ [([] : List Turn)])[a]?.getD [] = st.readArray a := by
      intro a hlt
      simp only [readArray_eq, List.getElem?_append_left hlt]
    refine ⟨⟨?_, ?_, ?_⟩, ?_, ?_⟩
    · intro r o hr
      simp only [getElem?_snoc_eq_some] at hr
      simp only [List.length_append, List.length_singleton]
      rcases hr with hr | ⟨_, rfl⟩
      · have := h.objHist r o hr; omega
      · simp
    · intro r1 r2 o1 o2 h1 h2 e
      simp only [getElem?_snoc_eq_some] at h1 h2
      rcases h1 with h1 | ⟨e1, rfl⟩ <;> rcases h2 with h2 | ⟨e2, rfl⟩
      · exact h.objInj r1 r2 o1 o2 h1 h2 e
      · have := h.objHist r1 o1 h1; simp at e; omega
      · have := h.objHist r2 o2 h2; simp at e; omega
      · omega
    · intro r o hr
      simp only [getElem?_snoc_eq_some] at hr
      simp only [readArray_eq]
      rcases hr with hr | ⟨_, rfl⟩
      · rw [key _ (h.objHist r o hr)]; exact h.evenCap r o hr
      · simp
    · simp
    · intro a hd
      refine ⟨⟨?_, ?_⟩, ?_⟩
      · have := hd.1; simp only [List.length_append, List.length_singleton]; omega
      · intro r o hr
        simp only [getElem?_snoc_eq_some] at hr
        rcases hr with hr | ⟨_, rfl⟩
        · exact hd.2 r o hr
        · have := hd.1; simp; omega
      · have := key a hd.1; simp only [readArray_eq] at this ⊢; exact this

theorem setLastActive_heapStep (st : State) (r t : Nat) (h : HeapOK st) :
    HeapStep st (st.setLastActive r t) := by
  have hobj : ∀ (r' : Nat) (o' : Session), (st.setLastActive r t).objects[r']? = some o' →
      ∃ o, st.objects[r']? = some o ∧ o'.history = o.history := by
    intro r' o' hr
    rw [setLastActive_objects_get] at hr
    cases ho : st.objects[r']? with
    | none => rw [ho] at hr; cases hr
    | some o =>
      rw [ho] at hr
      refine ⟨o, rfl, ?_⟩
      simp only [Option.map_some', Option.some.injEq] at hr
      rw [← hr]; split <;> rfl
  have harr := setLastActive_arrays st r t
  refine ⟨⟨?_, ?_, ?_⟩, ?_, ?_⟩
  · intro r' o' hr
    obtain ⟨o, ho, e⟩ := hobj r' o' hr
    rw [harr, e]; exact h.objHist r' o ho
  · intro r1 r2 o1 o2 h1 h2 e
    obtain ⟨p1, hp1, e1⟩ := hobj r1 o1 h1
    obtain ⟨p2, hp2, e2⟩ := hobj r2 o2 h2
    exact h.objInj r1 r2 p1 p2 hp1 hp2 (by rw [← e1, ← e2]; exact e)
  · intro r' o' hr
    obtain ⟨o, ho, e⟩ := hobj r' o' hr
    simp only [State.readArray, harr, e]; exact h.evenCap r' o ho
  · rw [setLastActive_objects_length]
  · intro a hd
    refine ⟨⟨?_, ?_⟩, ?_⟩
    · rw [harr]; exact hd.1
    · intro r' o' hr
      obtain ⟨o, ho, e⟩ := hobj r' o' hr
      rw [e]; exact hd.2 r' o ho
    · simp only [State.readArray, harr]

theorem sliceLast_length (n : Nat) (xs : List Turn) :
    (sliceLast n xs).length = min n xs.length := by
  simp only [sliceLast, List.length_drop]; omega

theorem sliceLast_of_le (n : Nat) (xs : List Turn) (h : xs.length ≤ n) :
    sliceLast n xs = xs := by
  have : xs.length - n = 0 := by omega
  simp [sliceLast, this]

theorem pushAndTrim_heapStep (st : State) (r : Nat) (u : JsString) (m : Option JsString)
    (h : HeapOK st) : HeapStep st (pushAndTrim st r u m) := by
  unfold pushAndTrim
  cases hr : st.objects[r]? with
  | none => exact HeapStep.refl h
  | some o =>
    have ho := h.objHist r o hr
    have hev := h.evenCap r o hr
    have hrl := lt_length_of_getElem? hr
    dsimp only
    generalize hp : st.readArray o.history ++
      [({ role := .user, text := some u } : Turn), { role := .model, text := m }] = pushed
    have hplen : pushed.length = (st.readArray o.history).length + 2 := by
      rw [← hp]; simp
    by_cases hlen : pushed.length > 20
    · rw [if_pos hlen]
      have key : ∀ a, a < st.arrays.length → a ≠ o.history →
          (st.arrays.set o.history pushed ++ [sliceLast 20 pushed])[a]?.getD [] =
            st.readArray a := by
        intro a hlt hne
        rw [List.getElem?_append_left (by simpa using hlt),
          List.getElem?_set_ne (fun e => hne e.symm), readArray_eq]
      refine ⟨⟨?_, ?_, ?_⟩, ?_, ?_⟩
      · intro r' o' hr'
        simp only [getElem?_set_eq_some] at hr'
        simp only [List.length_append, List.length_set, List.length_singleton]
        rcases hr' with ⟨_, _, rfl⟩ | ⟨_, hr'⟩
        · simp
        · have := h.objHist r' o' hr'; omega
      · intro r1 r2 o1 o2 h1 h2 e
        simp only [getElem?_set_eq_some, List.length_set] at h1 h2
        rcases h1 with ⟨e1, _, rfl⟩ | ⟨n1, h1⟩ <;> rcases h2 with ⟨e2, _, rfl⟩ | ⟨n2, h2⟩
        · omega
        · have := h.objHist r2 o2 h2; simp at e; omega
        · have := h.objHist r1 o1 h1; simp at e; omega
        · exact h.objInj r1 r2 o1 o2 h1 h2 e
      · intro r' o' hr'
        simp only [getElem?_set_eq_some, List.length_set] at hr'
        simp only [readArray_eq]
        rcases hr' with ⟨_, _, rfl⟩ | ⟨n1, hr'⟩
        · have : (st.arrays.set o.history pushed).length = st.arrays.length := by simp
          simp only []
          rw [← this, List.getElem?_concat_length]
          simp only [Option.getD_some, sliceLast_length]
          omega
        · have hne : o'.history ≠ o.history := by
            intro e
            exact n1 (h.objInj r r' o o' hr hr' e.symm)
          rw [key _ (h.objHist r' o' hr') hne]
          exact h.evenCap r' o' hr'
      · simp
      · intro a hd
        have hne : a ≠ o.history := fun e => hd.2 r o hr e.symm
        refine ⟨⟨?_, ?_⟩, ?_⟩
        · have := hd.1
          simp only [List.length_append, List.length_set, List.length_singleton]; omega
        · intro r' o' hr'
          simp only [getElem?_set_eq_some, List.length_set] at hr'
          rcases hr' with ⟨_, _, rfl⟩ | ⟨n1, hr'⟩
          · have := hd.1; simp; omega
          · exact hd.2 r' o' hr'
        · have := key a hd.1 hne
          simp only [readArray_eq] at this ⊢; exact this
    · rw [if_neg hlen]
      refine ⟨⟨?_, ?_, ?_⟩, ?_, ?_⟩
      · intro r' o' hr'
        simp only [List.length_set]
        exact h.objHist r' o' hr'
      · exact h.objInj
      · intro r' o' hr'
        simp only [readArray_eq, List.getElem?_set]
        by_cases e : o.history = o'.history
        · simp only [e, if_true, h.objHist r' o' hr', Option.getD_some]
          omega
        · simp only [e, if_false]
          have := h.evenCap r' o' hr'
          simpa only [readArray_eq] using this
      · exact Nat.le_refl _
      · intro a hd
        have hne : a ≠ o.history := fun e => hd.2 r o hr e.symm
        refine ⟨⟨?_, ?_⟩, ?_⟩
        · simpa using hd.1
        · exact hd.2
        · simp only [readArray_eq]
          rw [List.getElem?_set_ne (fun e => hne e.symm)]

theorem pushAndTrim_historyOf (st : State) (r : Nat) (u : JsString) (m : Option JsString)
    (h : HeapOK st) (hr : r < st.objects.length) :
    (pushAndTrim st r u m).historyOf r =
      sliceLast 20 (st.historyOf r ++
        [{ role := .user, text := some u }, { role := .model, text := m }]) := by
  unfold pushAndTrim State.historyOf
  cases ho : st.objects[r]? with
  | none => rw [List.getElem?_eq_none_iff] at ho; omega
  | some o =>
    have hh := h.objHist r o ho
    dsimp only
    generalize st.readArray o.history ++
      [({ role := .user, text := some u } : Turn), { role := .model, text := m }] = pushed
    by_cases hlen : pushed.length > 20
    · rw [if_pos hlen]
      simp only [List.length_set, List.getElem?_set_self hr, readArray_eq]
      have : (st.arrays.set o.history pushed).length = st.arrays.length := by simp
      rw [← this, List.getElem?_concat_length]
      rfl
    · rw [if_neg hlen]
      simp only [ho, readArray_eq, List.getElem?_set_self hh, Option.getD_some]
      rw [sliceLast_of_le _ _ (by omega)]

/-! ## Closed forms of the handlers -/

theorem JsMap.set_set {α : Type} (m : JsMap α) (k : JsString) (v w : α) :
    (m.set k v).set k w = m.set k w := by
  induction m with
  | nil => simp [JsMap.set]
  | cons e m ih =>
    obtain ⟨a, b⟩ := e
    by_cases h : a = k
    · simp [JsMap.set, h]
    · simp [JsMap.set, h, ih]

theorem submitMessage_invalid (st : State) (body : ChatBody) (env : SubmitEnv)
    (hv : invalidMessage body.message = true) :
    submitMessage st body env =
      (st, ⟨400, .invalid ⟨false, "Invalid request",
        "Message is required and must be a non-empty string"⟩⟩) := by
  simp [submitMessage, hv]

theorem submitMessage_accepted (st : State) (body : ChatBody) (env : SubmitEnv)
    (hv : invalidMessage body.message = false) :
    ∃ st2 r,
      st2 = (getSession st (sessionIdOf body env.dateNow) env.createdAt
        env.createdLastActive).1.setLastActive r env.lastActive ∧
      r = (getSession st (sessionIdOf body env.dateNow) env.createdAt
        env.createdLastActive).2 ∧
      (submitMessage st body env).1 =
        { arrays := st2.arrays ++ [st2.historyOf r]
          objects := st2.objects
          sessions := st2.sessions
          pendingTasks := st2.pendingTasks.set env.uuid
            ((newTask env.uuid (sessionIdOf body env.dateNow) body.message.str
              env.submittedAt st2.arrays.length).start env.start.startedAt)
          completedTasks := st2.completedTasks
          suspended := st2.suspended ++
            [.task env.uuid
              ((newTask env.uuid (sessionIdOf body env.dateNow) body.message.str
                env.submittedAt st2.arrays.length).start env.start.startedAt) r
              { userMessage := body.message.str, chatHistory := st2.historyOf r }] } := by
  refine ⟨_, _, rfl, rfl, ?_⟩
  generalize hg : getSession st (sessionIdOf body env.dateNow) env.createdAt
    env.createdLastActive = p
  have hs : p.1.sessions.get (sessionIdOf body env.dateNow) = some p.2 := by
    rw [← hg]; exact getSession_sessions_get _ _ _ _
  obtain ⟨st1, r⟩ := p
  simp only [submitMessage, hv, hg]
  simp only [Bool.false_eq_true, if_false, processTaskStart, JsMap.get_set, if_true]
  have hs2 : (st1.setLastActive r env.lastActive).sessions.get
      (sessionIdOf body env.dateNow) = some r := by
    rw [setLastActive_sessions]; exact hs
  simp only [getSession, Task.start, newTask, hs2, JsMap.set_set, readArray_eq,
    List.getElem?_concat_length, Option.getD_some]

theorem chatStart_invalid (st : State) (body : ChatBody) (env : ChatEnv)
    (hv : invalidMessage body.message = true) : (chatStart st body env).1 = st := by
  simp [chatStart, hv]

theorem chatStart_accepted (st : State) (body : ChatBody) (env : ChatEnv)
    (hv : invalidMessage body.message = false) :
    ∃ st2 r,
      st2 = (getSession st (sessionIdOf body env.dateNow) env.createdAt
        env.createdLastActive).1.setLastActive r env.lastActive ∧
      r = (getSession st (sessionIdOf body env.dateNow) env.createdAt
        env.createdLastActive).2 ∧
      (chatStart st body env).1 =
        { st2 with
            suspended := st2.suspended ++
              [.chat body.message.str (sessionIdOf body env.dateNow) r
                { userMessage := body.message.str, chatHistory := st2.historyOf r }] } := by
  refine ⟨_, _, rfl, rfl, ?_⟩
  simp [chatStart, hv]

theorem settle_of_get (st : State) (i : Nat) (k : Suspended) (o : Outcome) (env : SettleEnv)
    (h : st.suspended[i]? = some k) :
    settle st i o env = resume { st with suspended := st.suspended.eraseIdx i } k o env := by
  simp [settle, h]

theorem settle_of_none (st : State) (i : Nat) (o : Outcome) (env : SettleEnv)
    (h : st.suspended[i]? = none) : settle st i o env = st := by
  simp [settle, h]

/-! ## Heap consistency is kept by every operation -/

theorem processTaskResume_heapStep (st : State) (taskId : JsString) (task : Task)
    (session : Nat) (o : Outcome) (env : SettleEnv) (h : HeapOK st) :
    HeapStep st (processTaskResume st taskId task session o env) := by
  cases o with
  | returned response =>
    simp only [processTaskResume]
    by_cases hs : response.success = true
    · simp only [hs, if_true]
      have h1 := pushAndTrim_heapStep st session task.message response.message h
      have h2 := setLastActive_heapStep _ session env.lastActive h1.ok
      exact (h1.trans h2).trans (HeapStep.of_eq rfl rfl h2.ok)
    · simp only [hs, if_false]
      exact HeapStep.of_eq rfl rfl h
  | threw msg =>
    simp only [processTaskResume]
    split
    · exact HeapStep.of_eq rfl rfl h
    · exact HeapStep.refl h

theorem chatResume_heapStep (st : State) (message sessionId : JsString)
    (session : Nat) (o : Outcome) (env : SettleEnv) (h : HeapOK st) :
    HeapStep st (chatResume st message sessionId session o env).1 := by
  cases o with
  | returned response =>
    simp only [chatResume]
    by_cases hs : response.success = true
    · simp only [hs, if_true]
      exact pushAndTrim_heapStep st session message response.message h
    · simp only [hs, if_false]
      exact HeapStep.refl h
  | threw msg => exact HeapStep.refl h

theorem resume_heapStep (st : State) (k : Suspended) (o : Outcome) (env : SettleEnv)
    (h : HeapOK st) : HeapStep st (resume st k o env) := by
  cases k with
  | task taskId task session call => exact processTaskResume_heapStep st _ _ _ o env h
  | chat message sessionId session call => exact chatResume_heapStep st _ _ _ o env h

theorem submitMessage_heapStep (st : State) (body : ChatBody) (env : SubmitEnv)
    (h : HeapOK st) : HeapStep st (submitMessage st body env).1 := by
  cases hv : invalidMessage body.message with
  | true => rw [submitMessage_invalid st body env hv]; exact HeapStep.refl h
  | false =>
    obtain ⟨st2, r, e2, er, e⟩ := submitMessage_accepted st body env hv
    have h1 := getSession_heapStep st (sessionIdOf body env.dateNow) env.createdAt
      env.createdLastActive h
    have h2 := setLastActive_heapStep _ r env.lastActive h1.ok
    rw [← e2] at h2
    rw [e]
    exact (h1.trans h2).trans (HeapStep.of_alloc (st2.historyOf r) rfl rfl h2.ok)

theorem chatStart_heapStep (st : State) (body : ChatBody) (env : ChatEnv)
    (h : HeapOK st) : HeapStep st (chatStart st body env).1 := by
  cases hv : invalidMessage body.message with
  | true => rw [chatStart_invalid st body env hv]; exact HeapStep.refl h
  | false =>
    obtain ⟨st2, r, e2, er, e⟩ := chatStart_accepted st body env hv
    have h1 := getSession_heapStep st (sessionIdOf body env.dateNow) env.createdAt
      env.createdLastActive h
    have h2 := setLastActive_heapStep _ r env.lastActive h1.ok
    rw [← e2] at h2
    rw [e]
    exact (h1.trans h2).trans (HeapStep.of_eq rfl rfl h2.ok)

theorem clearSession_heapStep (st : State) (sid : JsString) (h : HeapOK st) :
    HeapStep st (clearSession st sid).1 := by
  unfold clearSession
  split
  · exact HeapStep.of_eq rfl rfl h
  · split
    · exact HeapStep.of_eq rfl rfl h
    · exact HeapStep.refl h

theorem settle_heapStep (st : State) (i : Nat) (o : Outcome) (env : SettleEnv)
    (h : HeapOK st) : HeapStep st (settle st i o env) := by
  cases hk : st.suspended[i]? with
  | none => rw [settle_of_none st i o env hk]; exact HeapStep.refl h
  | some k =>
    rw [settle_of_get st i k o env hk]
    have h0 : HeapStep st { st with suspended := st.suspended.eraseIdx i } :=
      HeapStep.of_eq rfl rfl h
    exact h0.trans (resume_heapStep _ k o env h0.ok)

theorem step_heapStep (st : State) (op : Op) (h : HeapOK st) : HeapStep st (step st op) := by
  cases op with
  | submitMessage body env => exact submitMessage_heapStep st body env h
  | chat body env => exact chatStart_heapStep st body env h
  | settle i o env => exact settle_heapStep st i o env h
  | getResponse _ => exact HeapStep.refl h
  | getActiveSessions _ => exact HeapStep.refl h
  | getPendingTasks => exact HeapStep.refl h
  | clearSession sid => exact clearSession_heapStep st sid h

theorem run_nil (st : State) : run st [] = st := rfl

theorem run_cons (st : State) (op : Op) (ops : List Op) :
    run st (op :: ops) = run (step st op) ops := rfl

theorem run_append (st : State) (ops1 ops2 : List Op) :
    run st (ops1 ++ ops2) = run (run st ops1) ops2 := by
  simp [run, List.foldl_append]

theorem run_heapStep (st : State) (ops : List Op) (h : HeapOK st) :
    HeapStep st (run st ops) := by
  induction ops generalizing st with
  | nil => exact HeapStep.refl h
  | cons op ops ih =>
    have h1 := step_heapStep st op h
    exact h1.trans (ih (step st op) h1.ok)

theorem init_heapOK : HeapOK State.init := by
  refine ⟨?_, ?_, ?_⟩ <;> intro r <;> simp [State.init]

theorem reachable_heapOK (ops : List Op) : HeapOK (run State.init ops) :=
  (run_heapStep State.init ops init_heapOK).ok

/-! ## References stay allocated -/

theorem RefsOK.transport {st st1 : State} (h : RefsOK st)
    (hs : st1.sessions = st.sessions) (hk : st1.suspended = st.suspended)
    (hl : st.objects.length ≤ st1.objects.length) : RefsOK st1 := by
  refine ⟨?_, ?_⟩
  · intro sid r hr; rw [hs] at hr; exact Nat.lt_of_lt_of_le (h.sessRef sid r hr) hl
  · intro k hk'; rw [hk] at hk'; exact Nat.lt_of_lt_of_le (h.suspRef k hk') hl

theorem getSession_refsOK (st : State) (sid : JsString) (c l : Nat) (h : RefsOK st) :
    RefsOK (getSession st sid c l).1 := by
  rcases getSession_cases st sid c l with ⟨r, _, h2⟩ | ⟨_, h2⟩
  · rw [h2]; exact h
  · rw [h2]
    refine ⟨?_, ?_⟩
    · intro sid' r hr
      simp only [List.length_append, List.length_singleton]
      rcases JsMap.mem_set _ _ _ _ hr with e | hr
      · simp only [Prod.mk.injEq] at e; omega
      · have := h.sessRef sid' r hr; omega
    · intro k hk
      have := h.suspRef k hk
      simp only [List.length_append, List.length_singleton]; omega

theorem getSession_ref_lt (st : State) (sid : JsString) (c l : Nat) (h : RefsOK st) :
    (getSession st sid c l).2 < (getSession st sid c l).1.objects.length :=
  (getSession_refsOK st sid c l h).sessRef sid _
    (JsMap.mem_of_get _ _ _ (getSession_sessions_get st sid c l))

theorem setLastActive_refsOK (st : State) (r t : Nat) (h : RefsOK st) :
    RefsOK (st.setLastActive r t) :=
  h.transport (setLastActive_sessions st r t) (setLastActive_suspended st r t)
    (by rw [setLastActive_objects_length])

theorem RefsOK.snoc {st st1 : State} (h : RefsOK st) (k : Suspended)
    (hs : st1.sessions = st.sessions) (hk : st1.suspended = st.suspended ++ [k])
    (hl : st1.objects.length = st.objects.length) (hr : k.session < st.objects.length) :
    RefsOK st1 := by
  refine ⟨?_, ?_⟩
  · intro sid r hr'; rw [hs] at hr'; rw [hl]; exact h.sessRef sid r hr'
  · intro k' hk'
    rw [hk, List.mem_append, List.mem_singleton] at hk'
    rw [hl]
    rcases hk' with hk' | rfl
    · exact h.suspRef k' hk'
    · exact hr

theorem submitMessage_refsOK (st : State) (body : ChatBody) (env : SubmitEnv)
    (h : RefsOK st) : RefsOK (submitMessage st body env).1 := by
  cases hv : invalidMessage body.message with
  | true => rw [submitMessage_invalid st body env hv]; exact h
  | false =>
    obtain ⟨st2, r, e2, er, e⟩ := submitMessage_accepted st body env hv
    have h1 := getSession_refsOK st (sessionIdOf body env.dateNow) env.createdAt
      env.createdLastActive h
    have hlt := getSession_ref_lt st (sessionIdOf body env.dateNow) env.createdAt
      env.createdLastActive h
    rw [← er] at hlt
    have h2 := setLastActive_refsOK _ r env.lastActive h1
    rw [← e2] at h2
    have hl2 : st2.objects.length = (getSession st (sessionIdOf body env.dateNow)
        env.createdAt env.createdLastActive).1.objects.length := by
      rw [e2, setLastActive_objects_length]
    rw [e]
    exact h2.snoc _ rfl rfl rfl (by rw [hl2]; exact hlt)

theorem chatStart_refsOK (st : State) (body : ChatBody) (env : ChatEnv)
    (h : RefsOK st) : RefsOK (chatStart st body env).1 := by
  cases hv : invalidMessage body.message with
  | true => rw [chatStart_invalid st body env hv]; exact h
  | false =>
    obtain ⟨st2, r, e2, er, e⟩ := chatStart_accepted st body env hv
    have h1 := getSession_refsOK st (sessionIdOf body env.dateNow) env.createdAt
      env.createdLastActive h
    have hlt := getSession_ref_lt st (sessionIdOf body env.dateNow) env.createdAt
      env.createdLastActive h
    rw [← er] at hlt
    have h2 := setLastActive_refsOK _ r env.lastActive h1
    rw [← e2] at h2
    have hl2 : st2.objects.length = (getSession st (sessionIdOf body env.dateNow)
        env.createdAt env.createdLastActive).1.objects.length := by
      rw [e2, setLastActive_objects_length]
    rw [e]
    exact h2.snoc _ rfl rfl rfl (by rw [hl2]; exact hlt)

theorem processTaskResume_sessions (st : State) (taskId : JsString) (task : Task)
    (session : Nat) (o : Outcome) (env : SettleEnv) :
    (processTaskResume st taskId task session o env).sessions = st.sessions := by
  cases o with
  | returned response =>
    simp only [processTaskResume]
    split
    · rw [setLastActive_sessions, pushAndTrim_sessions]
    · rfl
  | threw msg =>
    simp only [processTaskResume]
    split <;> rfl

theorem processTaskResume_suspended (st : State) (taskId : JsString) (task : Task)
    (session : Nat) (o : Outcome) (env : SettleEnv) :
    (processTaskResume st taskId task session o env).suspended = st.suspended := by
  cases o with
  | returned response =>
    simp only [processTaskResume]
    split
    · rw [setLastActive_suspended, pushAndTrim_suspended]
    · rfl
  | threw msg =>
    simp only [processTaskResume]
    split <;> rfl

theorem chatResume_sessions (st : State) (message sessionId : JsString)
    (session : Nat) (o : Outcome) (env : SettleEnv) :
    (chatResume st message sessionId session o env).1.sessions = st.sessions := by
  cases o with
  | returned response =>
    simp only [chatResume]
    split
    · rw [pushAndTrim_sessions]
    · rfl
  | threw msg => rfl

theorem chatResume_suspended (st : State) (message sessionId : JsString)
    (session : Nat) (o : Outcome) (env : SettleEnv) :
    (chatResume st message sessionId session o env).1.suspended = st.suspended := by
  cases o with
  | returned response =>
    simp only [chatResume]
    split
    · rw [pushAndTrim_suspended]
    · rfl
  | threw msg => rfl

theorem resume_sessions (st : State) (k : Suspended) (o : Outcome) (env : SettleEnv) :
    (resume st k o env).sessions = st.sessions := by
  cases k with
  | task taskId task session call => exact processTaskResume_sessions st _ _ _ o env
  | chat message sessionId session call => exact chatResume_sessions st _ _ _ o env

theorem resume_suspended (st : State) (k : Suspended) (o : Outcome) (env : SettleEnv) :
    (resume st k o env).suspended = st.suspended := by
  cases k with
  | task taskId task session call => exact processTaskResume_suspended st _ _ _ o env
  | chat message sessionId session call => exact chatResume_suspended st _ _ _ o env

theorem settle_refsOK (st : State) (i : Nat) (o : Outcome) (env : SettleEnv)
    (hh : HeapOK st) (h : RefsOK st) : RefsOK (settle st i o env) := by
  cases hk : st.suspended[i]? with
  | none => rw [settle_of_none st i o env hk]; exact h
  | some k =>
    rw [settle_of_get st i k o env hk]
    have h0 : RefsOK { st with suspended := st.suspended.eraseIdx i } := by
      refine ⟨h.sessRef, ?_⟩
      intro k' hk'
      exact h.suspRef k' (List.mem_of_mem_eraseIdx hk')
    have hh1 : HeapStep st { st with suspended := st.suspended.eraseIdx i } :=
      HeapStep.of_eq rfl rfl hh
    have hh0 := hh1.ok
    exact h0.transport (resume_sessions _ k o env) (resume_suspended _ k o env)
      (resume_heapStep _ k o env hh0).mono

theorem clearSession_refsOK (st : State) (sid : JsString) (h : RefsOK st) :
    RefsOK (clearSession st sid).1 := by
  unfold clearSession
  split
  · exact ⟨by intro sid' r hr; simp at hr, h.suspRef⟩
  · split
    · refine ⟨?_, h.suspRef⟩
      intro sid' r hr
      exact h.sessRef sid' r (JsMap.mem_delete _ _ _ hr)
    · exact h

theorem step_refsOK (st : State) (op : Op) (hh : HeapOK st) (h : RefsOK st) :
    RefsOK (step st op) := by
  cases op with
  | submitMessage body env => exact submitMessage_refsOK st body env h
  | chat body env => exact chatStart_refsOK st body env h
  | settle i o env => exact settle_refsOK st i o env hh h
  | getResponse _ => exact h
  | getActiveSessions _ => exact h
  | getPendingTasks => exact h
  | clearSession sid => exact clearSession_refsOK st sid h

theorem run_refsOK (st : State) (ops : List Op) (hh : HeapOK st) (h : RefsOK st) :
    RefsOK (run st ops) := by
  induction ops generalizing st with
  | nil => exact h
  | cons op ops ih =>
    exact ih (step st op) (step_heapStep st op hh).ok (step_refsOK st op hh h)

theorem init_refsOK : RefsOK State.init := by
  refine ⟨?_, ?_⟩
  · intro sid r hr; simp [State.init] at hr
  · intro k hk; simp [State.init] at hk

theorem reachable_refsOK (ops : List Op) : RefsOK (run State.init ops) :=
  run_refsOK State.init ops init_heapOK init_refsOK

/-! ## Histories -/

theorem historyOf_congr {st st1 : State} (ha : st1.arrays = st.arrays)
    (ho : st1.objects = st.objects) (r : Nat) : st1.historyOf r = st.historyOf r := by
  simp only [State.historyOf, State.readArray, ha, ho]

theorem setLastActive_historyOf (st : State) (r t r' : Nat) :
    (st.setLastActive r t).historyOf r' = st.historyOf r' := by
  simp only [State.historyOf, setLastActive_objects_get, State.readArray,
    setLastActive_arrays]
  cases st.objects[r']? with
  | none => rfl
  | some o => simp only [Option.map_some']; split <;> rfl

theorem resume_success_historyOf (st : State) (k : Suspended) (response : GenResult)
    (env : SettleEnv) (h : HeapOK st) (hr : k.session < st.objects.length)
    (hs : response.success = true) :
    (resume st k (.returned response) env).historyOf k.session =
      sliceLast 20 (st.historyOf k.session ++
        [{ role := .user, text := some k.message },
         { role := .model, text := response.message }]) := by
  cases k with
  | task taskId task session call =>
    simp only [resume, processTaskResume, hs, if_true, Suspended.session,
      Suspended.message] at hr ⊢
    rw [← pushAndTrim_historyOf st session task.message response.message h hr,
      ← setLastActive_historyOf (pushAndTrim st session task.message response.message)
        session env.lastActive session]
    exact historyOf_congr rfl rfl session
  | chat message sessionId session call =>
    simp only [resume, chatResume, hs, if_true, Suspended.session,
      Suspended.message] at hr ⊢
    exact pushAndTrim_historyOf st session message response.message h hr

theorem sliceLast_suffix (n : Nat) (xs : List Turn) : sliceLast n xs <:+ xs :=
  List.drop_suffix _ _

theorem sliceLast_append_two (h : List Turn) (u m : Turn) :
    sliceLast 20 (h ++ [u, m]) = sliceLast 18 h ++ [u, m] := by
  simp only [sliceLast, List.length_append, List.length_cons, List.length_nil]
  rw [List.drop_append_eq_append_drop]
  have e1 : h.length + (0 + 1 + 1) - 20 = h.length - 18 := by omega
  have e2 : h.length - 18 - h.length = 0 := by omega
  rw [e1, e2, List.drop_zero]

/-! ## Properties of the controller -/

/-- C1: in every state reached from the empty controller by submissions,
settled generator calls (of `processTask` and of `chat`), `chat` requests, polls,
listings and `clearSession`, every session of the session map is an allocated
session object whose history array has an even length of at most 20. -/
theorem session_history_even_capped (ops : List Op) (sid : JsString) (r : Nat)
    (h : (sid, r) ∈ (run State.init ops).sessions) :
    ∃ o hist, (run State.init ops).objects[r]? = some o ∧
      (run State.init ops).arrays[o.history]? = some hist ∧
      (run State.init ops).historyOf r = hist ∧
      hist.length % 2 = 0 ∧ hist.length ≤ 20 := by
  have hh := reachable_heapOK ops
  have hr := (reachable_refsOK ops).sessRef sid r h
  obtain ⟨o, ho⟩ : ∃ o, (run State.init ops).objects[r]? = some o :=
    ⟨_, List.getElem?_eq_getElem hr⟩
  have ha := hh.objHist r o ho
  have he := hh.evenCap r o ho
  refine ⟨o, _, ho, List.getElem?_eq_getElem ha, ?_, ?_⟩
  · simp [State.historyOf, ho, readArray_eq, List.getElem?_eq_getElem ha]
  · simpa [readArray_eq, List.getElem?_eq_getElem ha] using he

theorem session_history_even_capped_witness :
    ∃ o hist, (run State.init (sampleFull ++
          [.settle 0 (.returned sampleSuccess) sampleSettleEnv])).objects[0]? = some o ∧
      (run State.init (sampleFull ++
          [.settle 0 (.returned sampleSuccess) sampleSettleEnv])).arrays[o.history]? =
        some hist ∧
      (run State.init (sampleFull ++
          [.settle 0 (.returned sampleSuccess) sampleSettleEnv])).historyOf 0 = hist ∧
      hist.length % 2 = 0 ∧ hist.length ≤ 20 :=
  session_history_even_capped
    (sampleFull ++ [.settle 0 (.returned sampleSuccess) sampleSettleEnv]) (lit "s1") 0
    (by decide)

theorem settle_success_historyOf (st : State) (i : Nat) (k : Suspended)
    (response : GenResult) (env : SettleEnv) (hh : HeapOK st) (hr : RefsOK st)
    (hk : st.suspended[i]? = some k) (hs : response.success = true) :
    (settle st i (.returned response) env).historyOf k.session =
      sliceLast 20 (st.historyOf k.session ++
        [{ role := .user, text := some k.message },
         { role := .model, text := response.message }]) := by
  have hlt := hr.suspRef k (List.mem_iff_getElem?.mpr ⟨i, hk⟩)
  obtain ⟨a, o, s, p, c, q⟩ := st
  have h0 : HeapStep ⟨a, o, s, p, c, q⟩ ⟨a, o, s, p, c, q.eraseIdx i⟩ :=
    HeapStep.of_eq rfl rfl hh
  have key := resume_success_historyOf _ k response env h0.ok hlt hs
  rw [settle_of_get _ i k _ env hk]
  exact key

/-- C2: when a generator call settles with a successful result, the history
of the session object captured by the suspended `processTask` or `chat` call
becomes the last 20 entries of the old history followed by the user turn and
the model turn: it is a suffix of that list, of length `min 20 (old + 2)`, and
its last two entries are the user turn, then the model turn, after the
retained entries of the old history in their old order. -/
theorem append_exchange_keeps_last_twenty (ops : List Op) (i : Nat) (k : Suspended)
    (response : GenResult) (env : SettleEnv)
    (hk : (run State.init ops).suspended[i]? = some k)
    (hs : response.success = true) :
    (settle (run State.init ops) i (.returned response) env).historyOf k.session =
        sliceLast 20 ((run State.init ops).historyOf k.session ++
          [{ role := .user, text := some k.message },
           { role := .model, text := response.message }]) ∧
    (settle (run State.init ops) i (.returned response) env).historyOf k.session <:+
        (run State.init ops).historyOf k.session ++
          [{ role := .user, text := some k.message },
           { role := .model, text := response.message }] ∧
    ((settle (run State.init ops) i (.returned response) env).historyOf k.session).length =
        min 20 (((run State.init ops).historyOf k.session).length + 2) ∧
    ∃ kept, kept <:+ (run State.init ops).historyOf k.session ∧
      (settle (run State.init ops) i (.returned response) env).historyOf k.session =
        kept ++ [{ role := .user, text := some k.message },
                 { role := .model, text := response.message }] := by
  rw [settle_success_historyOf _ i k response env (reachable_heapOK ops)
    (reachable_refsOK ops) hk hs]
  refine ⟨rfl, sliceLast_suffix _ _, ?_, ?_⟩
  · rw [sliceLast_length]; simp
  · exact ⟨_, sliceLast_suffix 18 _, sliceLast_append_two _ _ _⟩

theorem append_exchange_keeps_last_twenty_witness :
    ((run State.init sampleFull).historyOf 0).length = 20 ∧
    (settle (run State.init sampleFull) 0 (.returned sampleSuccess)
        sampleSettleEnv).historyOf 0 =
      ((run State.init sampleFull).historyOf 0).drop 2 ++
        [{ role := .user, text := some [58] },
         { role := .model, text := some (lit "hello") }] :=
  ⟨by decide,
   (append_exchange_keeps_last_twenty sampleFull 0
      (.chat [58] (lit "s1") 0
        { userMessage := [58], chatHistory := (run State.init sampleFull).historyOf 0 })
      sampleSuccess sampleSettleEnv (by decide) (by decide)).1.trans (by decide)⟩

theorem validateChatRequest_eq_next_iff (body : ChatBody) :
    validateChatRequest body = .next ↔
      invalidMessage body.message = false ∧ body.message.str.length ≤ 1000 := by
  unfold validateChatRequest invalidMessage
  by_cases h1 : (!body.message.truthy || !body.message.isString) = true
  · simp only [h1, if_true]
    simp
  · simp only [h1, if_false]
    have h1' : (!body.message.truthy || !body.message.isString) = false := by
      simpa using h1
    by_cases h2 : (trim body.message.str).length = 0
    · simp [h2]
    · by_cases h3 : body.message.str.length > 1000
      · simp only [h2, h3, if_true, if_false]
        simp
        omega
      · simp only [h2, h3, if_false]
        simp [h1', h2]
        omega

theorem validateChatRequest_code (body : ChatBody) :
    validateChatRequest body = .next ∨
      ∃ e, validateChatRequest body = .reject ⟨400, e⟩ := by
  unfold validateChatRequest
  split
  · exact Or.inr ⟨_, rfl⟩
  · split
    · exact Or.inr ⟨_, rfl⟩
    · split
      · exact Or.inr ⟨_, rfl⟩
      · exact Or.inl rfl

/-- C6: `validateChatRequest` calls `next` exactly when `message` is a string
with at least one code unit that `trim` keeps and with `length` at most 1000,
and answers 400 otherwise; a non-blank message of length 1000 is passed on and
every message of length 1001 is answered with 400. Lengths are JavaScript
string lengths. -/
theorem validateChatRequest_accepts_iff (body : ChatBody) :
    (validateChatRequest body = .next ↔
      ∃ s, body.message = .string s ∧ (∃ c ∈ s, isTrimUnit c = false) ∧
        s.length ≤ 1000) ∧
    (validateChatRequest body ≠ .next ↔
      ∃ e, validateChatRequest body = .reject ⟨400, e⟩) ∧
    (∀ s, body.message = .string s → (∃ c ∈ s, isTrimUnit c = false) →
      s.length = 1000 → validateChatRequest body = .next) ∧
    (∀ s, body.message = .string s → s.length = 1001 →
      ∃ e, validateChatRequest body = .reject ⟨400, e⟩) := by
  have main : validateChatRequest body = .next ↔
      ∃ s, body.message = .string s ∧ (∃ c ∈ s, isTrimUnit c = false) ∧
        s.length ≤ 1000 := by
    rw [validateChatRequest_eq_next_iff, invalidMessage_eq_false_iff]
    constructor
    · rintro ⟨⟨s, hs, hc⟩, hl⟩
      refine ⟨s, hs, hc, ?_⟩
      rw [hs] at hl; exact hl
    · rintro ⟨s, hs, hc, hl⟩
      refine ⟨⟨s, hs, hc⟩, ?_⟩
      rw [hs]; exact hl
  have code := validateChatRequest_code body
  refine ⟨main, ?_, ?_, ?_⟩
  · constructor
    · intro hne
      rcases code with h | h
      · exact absurd h hne
      · exact h
    · rintro ⟨e, he⟩ hn
      rw [he] at hn; cases hn
  · intro s hs hc hl
    exact main.mpr ⟨s, hs, hc, by omega⟩
  · intro s hs hl
    rcases code with h | h
    · obtain ⟨s', hs', _, hl'⟩ := main.mp h
      rw [hs] at hs'
      cases hs'
      omega
    · exact h

theorem validateChatRequest_accepts_iff_witness :
    validateChatRequest ⟨.string (List.replicate 1000 97), none⟩ = .next ∧
    ∃ e, validateChatRequest ⟨.string (List.replicate 1001 97), none⟩ = .reject ⟨400, e⟩ :=
  ⟨(validateChatRequest_accepts_iff ⟨.string (List.replicate 1000 97), none⟩).2.2.1 _ rfl
      ⟨97, List.mem_replicate.mpr ⟨by decide, rfl⟩, by decide⟩ (List.length_replicate _ _),
   (validateChatRequest_accepts_iff ⟨.string (List.replicate 1001 97), none⟩).2.2.2 _ rfl
      (List.length_replicate _ _)⟩

/-- C7: a request whose `message` is missing, is not a string, is the empty
string or holds white space only is answered by `submitMessage` with status
400, and the controller is left as it was: the session map, the pending map
and the completed map are unchanged, so no session and no task is created. -/
theorem submitMessage_rejects_blank (st : State) (body : ChatBody) (env : SubmitEnv)
    (h : body.message = .undefined ∨ body.message.isString = false ∨
      body.message = .string [] ∨
      ∃ s, body.message = .string s ∧ ∀ c ∈ s, isTrimUnit c = true) :
    (submitMessage st body env).2.code = 400 ∧
    (submitMessage st body env).1 = st ∧
    (submitMessage st body env).1.sessions = st.sessions ∧
    (submitMessage st body env).1.pendingTasks = st.pendingTasks ∧
    (submitMessage st body env).1.completedTasks = st.completedTasks := by
  have hv : invalidMessage body.message = true := by
    cases hi : invalidMessage body.message with
    | true => rfl
    | false =>
      obtain ⟨s, hs, c, hc, hcf⟩ := (invalidMessage_eq_false_iff _).mp hi
      rcases h with h | h | h | ⟨s', hs', hall⟩
      · rw [hs] at h; cases h
      · rw [hs] at h; simp [JsVal.isString] at h
      · rw [hs] at h; cases h; simp at hc
      · rw [hs] at hs'; cases hs'
        rw [hall c hc] at hcf; cases hcf
  rw [submitMessage_invalid st body env hv]
  exact ⟨rfl, rfl, rfl, rfl, rfl⟩

theorem submitMessage_rejects_blank_witness :
    (submitMessage (run State.init sampleCompleted) ⟨.string (lit "  \n"), some (lit "s2")⟩
        sampleSubmitEnv).2.code = 400 ∧
    (submitMessage (run State.init sampleCompleted) ⟨.string (lit "  \n"), some (lit "s2")⟩
        sampleSubmitEnv).1 = run State.init sampleCompleted :=
  let h := submitMessage_rejects_blank (run State.init sampleCompleted)
    ⟨.string (lit "  \n"), some (lit "s2")⟩ sampleSubmitEnv
    (Or.inr (Or.inr (Or.inr ⟨lit "  \n", rfl, by decide⟩)))
  ⟨h.1, h.2.1⟩

/-! ## Effect of the operations on the task maps -/

theorem issuedIds_cons (op : Op) (ops : List Op) :
    issuedIds (op :: ops) = issuedIds [op] ++ issuedIds ops := by
  cases op with
  | submitMessage body env =>
    simp only [issuedIds]
    split <;> simp
  | _ => simp [issuedIds]

theorem issuedIds_append (ops1 ops2 : List Op) :
    issuedIds (ops1 ++ ops2) = issuedIds ops1 ++ issuedIds ops2 := by
  induction ops1 with
  | nil => simp [issuedIds]
  | cons op ops ih =>
    rw [List.cons_append, issuedIds_cons, ih, issuedIds_cons op ops, List.append_assoc]

theorem submitMessage_taskEffect (st : State) (body : ChatBody) (env : SubmitEnv) :
    TaskEffect st (submitMessage st body env).1
      (issuedIds [.submitMessage body env]) := by
  cases hv : invalidMessage body.message with
  | true =>
    rw [submitMessage_invalid st body env hv]
    simp only [issuedIds, hv, if_true]
    exact .same rfl rfl rfl
  | false =>
    obtain ⟨st2, r, e2, er, e⟩ := submitMessage_accepted st body env hv
    have hp : st2.pendingTasks = st.pendingTasks := by
      rw [e2, setLastActive_pendingTasks, getSession_pendingTasks]
    have hc : st2.completedTasks = st.completedTasks := by
      rw [e2, setLastActive_completedTasks, getSession_completedTasks]
    have hs : st2.suspended = st.suspended := by
      rw [e2, setLastActive_suspended, getSession_suspended]
    simp only [issuedIds, hv, Bool.false_eq_true, if_false]
    rw [e]
    exact .submitted env.uuid _ r _ rfl (by rw [← hp]) hc (by rw [← hs])

theorem chatStart_taskEffect (st : State) (body : ChatBody) (env : ChatEnv) :
    TaskEffect st (chatStart st body env).1 [] := by
  cases hv : invalidMessage body.message with
  | true =>
    rw [chatStart_invalid st body env hv]
    exact .same rfl rfl rfl
  | false =>
    obtain ⟨st2, r, e2, er, e⟩ := chatStart_accepted st body env hv
    have hp : st2.pendingTasks = st.pendingTasks := by
      rw [e2, setLastActive_pendingTasks, getSession_pendingTasks]
    have hc : st2.completedTasks = st.completedTasks := by
      rw [e2, setLastActive_completedTasks, getSession_completedTasks]
    have hs : st2.suspended = st.suspended := by
      rw [e2, setLastActive_suspended, getSession_suspended]
    rw [e]
    exact .chatStarted _ _ r _ hp hc (by rw [← hs])

theorem chatResume_pendingTasks (st : State) (message sessionId : JsString)
    (session : Nat) (o : Outcome) (env : SettleEnv) :
    (chatResume st message sessionId session o env).1.pendingTasks = st.pendingTasks := by
  cases o with
  | returned response =>
    simp only [chatResume]
    split
    · rw [pushAndTrim_pendingTasks]
    · rfl
  | threw msg => rfl

theorem chatResume_completedTasks (st : State) (message sessionId : JsString)
    (session : Nat) (o : Outcome) (env : SettleEnv) :
    (chatResume st message sessionId session o env).1.completedTasks =
      st.completedTasks := by
  cases o with
  | returned response =>
    simp only [chatResume]
    split
    · rw [pushAndTrim_completedTasks]
    · rfl
  | threw msg => rfl

theorem processTaskResume_returned_pendingTasks (st : State) (taskId : JsString)
    (task : Task) (session : Nat) (response : GenResult) (env : SettleEnv) :
    (processTaskResume st taskId task session (.returned response) env).pendingTasks =
      st.pendingTasks.delete taskId := by
  simp only [processTaskResume]
  split
  · rw [setLastActive_pendingTasks, pushAndTrim_pendingTasks]
  · rfl

theorem processTaskResume_returned_completedTasks (st : State) (taskId : JsString)
    (task : Task) (session : Nat) (response : GenResult) (env : SettleEnv) :
    (processTaskResume st taskId task session (.returned response) env).completedTasks =
      st.completedTasks.set taskId (task.complete response env) := by
  simp only [processTaskResume]
  split
  · rw [setLastActive_completedTasks, pushAndTrim_completedTasks]
  · rfl

theorem settle_taskEffect (st : State) (i : Nat) (o : Outcome) (env : SettleEnv) :
    TaskEffect st (settle st i o env) [] := by
  cases hk : st.suspended[i]? with
  | none => rw [settle_of_none st i o env hk]; exact .same rfl rfl rfl
  | some k =>
    rw [settle_of_get st i k o env hk]
    cases k with
    | chat m sid r c =>
      refine .chatSettled i m sid r c hk ?_ ?_ ?_
      · simp only [resume]; rw [chatResume_pendingTasks]
      · simp only [resume]; rw [chatResume_completedTasks]
      · simp only [resume]; rw [chatResume_suspended]
    | task id t r c =>
      cases o with
      | returned response =>
        refine .finished i id t r c (t.complete response env) env hk
          (Or.inl ⟨response, rfl⟩) ?_ ?_ ?_
        · simp only [resume]; rw [processTaskResume_returned_pendingTasks]
        · simp only [resume]; rw [processTaskResume_returned_completedTasks]
        · simp only [resume]; rw [processTaskResume_suspended]
      | threw msg =>
        cases hp : st.pendingTasks.get id with
        | none =>
          refine .dropped i id t r c hk hp ?_ ?_ ?_ <;>
            simp only [resume, processTaskResume, hp]
        | some t1 =>
          refine .finished i id t r c (t1.fail msg env) env hk
            (Or.inr ⟨t1, msg, hp, rfl⟩) ?_ ?_ ?_ <;>
            simp only [resume, processTaskResume, hp]

theorem clearSession_taskEffect (st : State) (sid : JsString) :
    TaskEffect st (clearSession st sid).1 [] := by
  unfold clearSession
  split
  · exact .same rfl rfl rfl
  · split
    · exact .same rfl rfl rfl
    · exact .same rfl rfl rfl

theorem step_taskEffect (st : State) (op : Op) :
    TaskEffect st (step st op) (issuedIds [op]) := by
  cases op with
  | submitMessage body env => exact submitMessage_taskEffect st body env
  | chat body env => exact chatStart_taskEffect st body env
  | settle i o env => exact settle_taskEffect st i o env
  | getResponse _ => exact .same rfl rfl rfl
  | getActiveSessions _ => exact .same rfl rfl rfl
  | getPendingTasks => exact .same rfl rfl rfl
  | clearSession sid => exact clearSession_taskEffect st sid

/-! ## Suspended calls and their task ids -/

theorem taskIds_append (l1 l2 : List Suspended) :
    taskIds (l1 ++ l2) = taskIds l1 ++ taskIds l2 := by
  induction l1 with
  | nil => rfl
  | cons k l ih => cases k <;> simp [taskIds, ih]

theorem mem_taskIds (l : List Suspended) (id : JsString) :
    id ∈ taskIds l ↔ ∃ t r c, Suspended.task id t r c ∈ l := by
  induction l with
  | nil => simp [taskIds]
  | cons k l ih =>
    cases k with
    | task id' t' r' c' =>
      simp only [taskIds, List.mem_cons, ih]
      constructor
      · rintro (rfl | ⟨t, r, c, h⟩)
        · exact ⟨t', r', c', Or.inl rfl⟩
        · exact ⟨t, r, c, Or.inr h⟩
      · rintro ⟨t, r, c, h | h⟩
        · left; cases h; rfl
        · exact Or.inr ⟨t, r, c, h⟩
    | chat m sid r' c' =>
      simp only [taskIds, List.mem_cons, ih]
      constructor
      · rintro ⟨t, r, c, h⟩
        exact ⟨t, r, c, Or.inr h⟩
      · rintro ⟨t, r, c, h | h⟩
        · cases h
        · exact ⟨t, r, c, h⟩

theorem split_at_getElem? {α : Type} (l : List α) (i : Nat) (x : α) (h : l[i]? = some x) :
    ∃ l1 l2, l = l1 ++ x :: l2 ∧ l.eraseIdx i = l1 ++ l2 := by
  induction l generalizing i with
  | nil => simp at h
  | cons a l ih =>
    cases i with
    | zero =>
      simp only [List.getElem?_cons_zero, Option.some.injEq] at h
      subst h
      exact ⟨[], l, rfl, rfl⟩
    | succ n =>
      simp only [List.getElem?_cons_succ] at h
      obtain ⟨l1, l2, e1, e2⟩ := ih n h
      refine ⟨a :: l1, l2, ?_, ?_⟩
      · rw [e1]; rfl
      · simp only [List.eraseIdx_cons_succ, e2]; rfl

/-! ## Invariants of the task maps -/

theorem issued_step {st st1 : State} {ids new : List JsString} (h : Issued st ids)
    (e : TaskEffect st st1 new) : Issued st1 (ids ++ new) := by
  cases e with
  | same hp hc hs =>
    refine ⟨?_, ?_⟩
    · intro id t ht; rw [hc] at ht; simpa using h.completed id t ht
    · intro id hi; rw [hs] at hi; simpa using h.suspended id hi
  | chatStarted m sid r c hp hc hs =>
    refine ⟨?_, ?_⟩
    · intro id t ht; rw [hc] at ht; simpa using h.completed id t ht
    · intro id hi
      rw [hs, taskIds_append] at hi
      simp only [taskIds, List.append_nil] at hi
      simpa using h.suspended id hi
  | chatSettled i m sid r c hk hp hc hs =>
    obtain ⟨l1, l2, e1, e2⟩ := split_at_getElem? _ _ _ hk
    refine ⟨?_, ?_⟩
    · intro id t ht; rw [hc] at ht; simpa using h.completed id t ht
    · intro id hi
      rw [hs, e2, taskIds_append] at hi
      have : id ∈ taskIds st.suspended := by
        rw [e1, taskIds_append]; simpa [taskIds] using hi
      simpa using h.suspended id this
  | submitted id' t r c hst hp hc hs =>
    refine ⟨?_, ?_⟩
    · intro id t ht; rw [hc] at ht
      exact List.mem_append_left _ (h.completed id t ht)
    · intro id hi
      rw [hs, taskIds_append] at hi
      simp only [taskIds, List.mem_append, List.mem_singleton] at hi ⊢
      rcases hi with hi | hi
      · exact Or.inl (h.suspended id hi)
      · exact Or.inr hi
  | finished i id' t r c rec env hk hrec hp hc hs =>
    obtain ⟨l1, l2, e1, e2⟩ := split_at_getElem? _ _ _ hk
    have hid : id' ∈ taskIds st.suspended := by
      rw [e1, taskIds_append]; simp [taskIds]
    refine ⟨?_, ?_⟩
    · intro id t' ht
      rw [hc, JsMap.get_set] at ht
      simp only [List.append_nil]
      by_cases e : id' = id
      · subst e; exact h.suspended _ hid
      · simp only [e, if_false] at ht; exact h.completed id t' ht
    · intro id hi
      rw [hs, e2, taskIds_append] at hi
      have : id ∈ taskIds st.suspended := by
        rw [e1, taskIds_append]
        simp only [taskIds, List.mem_append, List.mem_cons] at hi ⊢
        tauto
      simpa using h.suspended id this
  | dropped i id' t r c hk hn hp hc hs =>
    obtain ⟨l1, l2, e1, e2⟩ := split_at_getElem? _ _ _ hk
    refine ⟨?_, ?_⟩
    · intro id t ht; rw [hc] at ht; simpa using h.completed id t ht
    · intro id hi
      rw [hs, e2, taskIds_append] at hi
      have : id ∈ taskIds st.suspended := by
        rw [e1, taskIds_append]
        simp only [taskIds, List.mem_append, List.mem_cons] at hi ⊢
        tauto
      simpa using h.suspended id this

theorem exclusive_step {st st1 : State} {ids new : List JsString} (h : Exclusive st)
    (hi : Issued st ids) (e : TaskEffect st st1 new) (hnew : ∀ id ∈ new, id ∉ ids) :
    Exclusive st1 := by
  cases e with
  | same hp hc hs =>
    exact ⟨by rw [hs]; exact h.nodup, by rw [hp, hs]; exact h.pending,
      by rw [hc, hs]; exact h.completed⟩
  | chatStarted m sid r c hp hc hs =>
    have e : taskIds st1.suspended = taskIds st.suspended := by
      rw [hs, taskIds_append]; simp [taskIds]
    exact ⟨by rw [e]; exact h.nodup, by rw [hp, e]; exact h.pending,
      by rw [hc, e]; exact h.completed⟩
  | chatSettled i m sid r c hk hp hc hs =>
    obtain ⟨l1, l2, e1, e2⟩ := split_at_getElem? _ _ _ hk
    have e : taskIds st1.suspended = taskIds st.suspended := by
      rw [hs, e2, e1, taskIds_append, taskIds_append]; simp [taskIds]
    exact ⟨by rw [e]; exact h.nodup, by rw [hp, e]; exact h.pending,
      by rw [hc, e]; exact h.completed⟩
  | submitted id' t r c hst hp hc hs =>
    have hfresh : id' ∉ ids := hnew id' (List.mem_singleton.mpr rfl)
    have hns : id' ∉ taskIds st.suspended := fun hm => hfresh (hi.suspended id' hm)
    have e : taskIds st1.suspended = taskIds st.suspended ++ [id'] := by
      rw [hs, taskIds_append]; simp [taskIds]
    refine ⟨?_, ?_, ?_⟩
    · rw [e]
      exact List.Nodup.append h.nodup (List.nodup_singleton _)
        (by intro x hx hx'; simp only [List.mem_singleton] at hx'; subst hx'; exact hns hx)
    · intro id
      rw [e, hp, JsMap.has, JsMap.get_set]
      by_cases e' : id' = id
      · simp [e']
      · have := h.pending id
        simp only [JsMap.has] at this
        simp only [e', if_false, this, List.mem_append, List.mem_singleton]
        constructor
        · exact Or.inl
        · rintro (h1 | h1)
          · exact h1
          · exact absurd h1.symm e'
    · intro id t' ht
      rw [hc] at ht
      rw [e, List.mem_append, List.mem_singleton]
      rintro (h1 | h1)
      · exact h.completed id t' ht h1
      · subst h1; exact hfresh (hi.completed _ t' ht)
  | finished i id' t r c rec env hk hrec hp hc hs =>
    obtain ⟨l1, l2, e1, e2⟩ := split_at_getElem? _ _ _ hk
    have eold : taskIds st.suspended = taskIds l1 ++ id' :: taskIds l2 := by
      rw [e1, taskIds_append]; simp [taskIds]
    have enew : taskIds st1.suspended = taskIds l1 ++ taskIds l2 := by
      rw [hs, e2, taskIds_append]
    have hnd := h.nodup
    rw [eold] at hnd
    have hnd1 := List.nodup_cons.mp (List.nodup_middle.mp hnd)
    have hnot : id' ∉ taskIds l1 ++ taskIds l2 := hnd1.1
    have hnd2 : (taskIds l1 ++ taskIds l2).Nodup := hnd1.2
    refine ⟨by rw [enew]; exact hnd2, ?_, ?_⟩
    · intro id
      rw [enew, hp, JsMap.has, JsMap.get_delete]
      have := h.pending id
      simp only [JsMap.has, eold] at this
      by_cases e' : id' = id
      · subst e'; simp only [if_true, Option.isSome_none]
        constructor
        · intro hf; cases hf
        · intro hm; exact absurd hm hnot
      · simp only [e', if_false, this, List.mem_append, List.mem_cons]
        constructor
        · rintro (h1 | h1 | h1)
          · exact Or.inl h1
          · exact absurd h1.symm e'
          · exact Or.inr h1
        · rintro (h1 | h1)
          · exact Or.inl h1
          · exact Or.inr (Or.inr h1)
    · intro id t' ht
      rw [hc, JsMap.get_set] at ht
      rw [enew]
      by_cases e' : id' = id
      · subst e'; exact hnot
      · simp only [e', if_false] at ht
        have := h.completed id t' ht
        rw [eold] at this
        intro hm
        apply this
        simp only [List.mem_append, List.mem_cons] at hm ⊢
        tauto
  | dropped i id' t r c hk hn hp hc hs =>
    exfalso
    have hm : id' ∈ taskIds st.suspended :=
      (mem_taskIds _ _).mpr ⟨t, r, c, List.mem_iff_getElem?.mpr ⟨i, hk⟩⟩
    have := (h.pending id').mpr hm
    simp [JsMap.has, hn] at this


theorem run_issued (st : State) (ids : List JsString) (ops : List Op)
    (h : Issued st ids) : Issued (run st ops) (ids ++ issuedIds ops) := by
  induction ops generalizing st ids with
  | nil => simpa [issuedIds, run_nil] using h
  | cons op ops ih =>
    rw [run_cons, issuedIds_cons, ← List.append_assoc]
    exact ih _ _ (issued_step h (step_taskEffect st op))

theorem run_exclusive (st : State) (ids : List JsString) (ops : List Op)
    (hi : Issued st ids) (h : Exclusive st) (hn : (ids ++ issuedIds ops).Nodup) :
    Exclusive (run st ops) := by
  induction ops generalizing st ids with
  | nil => exact h
  | cons op ops ih =>
    rw [run_cons]
    rw [issuedIds_cons, ← List.append_assoc] at hn
    have hn1 : (ids ++ issuedIds [op]).Nodup := (List.nodup_append.mp hn).1
    refine ih _ (ids ++ issuedIds [op]) (issued_step hi (step_taskEffect st op)) ?_ hn
    refine exclusive_step h hi (step_taskEffect st op) ?_
    intro id hid hid'
    exact (List.nodup_append.mp hn1).2.2 hid' hid

theorem init_issued : Issued State.init [] := by
  refine ⟨?_, ?_⟩
  · intro id t h; simp [State.init, JsMap.get] at h
  · intro id h; simp [State.init, taskIds] at h

theorem init_exclusive : Exclusive State.init := by
  refine ⟨?_, ?_, ?_⟩
  · simp [State.init, taskIds]
  · intro id; simp [State.init, taskIds, JsMap.has, JsMap.get]
  · intro id t h; simp [State.init, JsMap.get] at h

theorem reachable_issued (ops : List Op) : Issued (run State.init ops) (issuedIds ops) := by
  simpa using run_issued State.init [] ops init_issued

theorem reachable_exclusive (ops : List Op) (hn : (issuedIds ops).Nodup) :
    Exclusive (run State.init ops) :=
  run_exclusive State.init [] ops init_issued init_exclusive (by simpa using hn)

/-- C4: when the task ids handed out by `uuidv4()` are pairwise different, no
task id is a key of the pending map and of the completed map at once, in any
state reached from the empty controller. -/
theorem pending_completed_disjoint (ops : List Op) (id : JsString)
    (hfresh : (issuedIds ops).Nodup) :
    ¬ ((run State.init ops).pendingTasks.has id = true ∧
       (run State.init ops).completedTasks.has id = true) := by
  rintro ⟨hp, hc⟩
  have hx := reachable_exclusive ops hfresh
  obtain ⟨t, ht⟩ := (JsMap.has_eq_true_iff _ _).mp hc
  exact hx.completed id t ht ((hx.pending id).mp hp)

theorem pending_completed_disjoint_witness :
    ¬ ((run State.init (sampleCompleted ++
          .submitMessage sampleBody sampleSubmitEnv2 :: sampleLater)).pendingTasks.has
          (lit "t2") = true ∧
       (run State.init (sampleCompleted ++
          .submitMessage sampleBody sampleSubmitEnv2 :: sampleLater)).completedTasks.has
          (lit "t2") = true) :=
  pending_completed_disjoint
    (sampleCompleted ++ .submitMessage sampleBody sampleSubmitEnv2 :: sampleLater) (lit "t2")
    (by decide)

theorem completed_stable (st : State) (ids : List JsString) (ops : List Op)
    (id : JsString) (rec : Task) (hi : Issued st ids) (hx : Exclusive st)
    (hn : (ids ++ issuedIds ops).Nodup) (hc : st.completedTasks.get id = some rec) :
    (run st ops).completedTasks.get id = some rec := by
  induction ops generalizing st ids with
  | nil => exact hc
  | cons op ops ih =>
    rw [run_cons]
    rw [issuedIds_cons, ← List.append_assoc] at hn
    have hn1 : (ids ++ issuedIds [op]).Nodup := (List.nodup_append.mp hn).1
    have eff := step_taskEffect st op
    have hx1 : Exclusive (step st op) :=
      exclusive_step hx hi eff (fun id hid hid' => (List.nodup_append.mp hn1).2.2 hid' hid)
    refine ih _ (ids ++ issuedIds [op]) (issued_step hi eff) hx1 hn ?_
    have hnot := hx.completed id rec hc
    generalize issuedIds [op] = new at eff
    cases eff with
    | same hp hc' hs => rw [hc']; exact hc
    | chatStarted m sid r c hp hc' hs => rw [hc']; exact hc
    | chatSettled i m sid r c hk hp hc' hs => rw [hc']; exact hc
    | submitted id' t r c hst hp hc' hs => rw [hc']; exact hc
    | dropped i id' t r c hk hn' hp hc' hs => rw [hc']; exact hc
    | finished i id' t r c rec' env hk hrec hp hc' hs =>
      rw [hc', JsMap.get_set]
      by_cases e : id' = id
      · subst e
        exact absurd ((mem_taskIds _ _).mpr ⟨t, r, c, List.mem_iff_getElem?.mpr ⟨i, hk⟩⟩) hnot
      · simp only [e, if_false]; exact hc

/-- C9: with pairwise different task ids, a task that is in the completed map
stays there with the same record after any further operations and is not in
the pending map again; so `getResponse` gives the same answer for it after any
of them, however often it is asked. -/
theorem completed_task_is_final (ops1 ops2 : List Op) (id : JsString) (rec : Task)
    (hfresh : (issuedIds (ops1 ++ ops2)).Nodup)
    (hc : (run State.init ops1).completedTasks.get id = some rec) :
    (run State.init (ops1 ++ ops2)).completedTasks.get id = some rec ∧
    (run State.init (ops1 ++ ops2)).pendingTasks.get id = none ∧
    getResponse (run State.init (ops1 ++ ops2)) id = getResponse (run State.init ops1) id ∧
    getResponse (run State.init (ops1 ++ ops2)) id =
      ⟨200, .completed true id rec.sessionId rec.status rec.response rec.submittedAt
        rec.completedAt rec.processingTime⟩ ∧
    step (run State.init (ops1 ++ ops2)) (.getResponse id) =
      run State.init (ops1 ++ ops2) := by
  rw [issuedIds_append] at hfresh
  have hi := reachable_issued ops1
  have hx := reachable_exclusive ops1 (List.nodup_append.mp hfresh).1
  have h2 : (run State.init (ops1 ++ ops2)).completedTasks.get id = some rec := by
    rw [run_append]
    exact completed_stable _ _ ops2 id rec hi hx hfresh hc
  have hx2 : Exclusive (run State.init (ops1 ++ ops2)) :=
    reachable_exclusive _ (by rw [issuedIds_append]; exact hfresh)
  have hp : (run State.init (ops1 ++ ops2)).pendingTasks.get id = none := by
    cases hg : (run State.init (ops1 ++ ops2)).pendingTasks.get id with
    | none => rfl
    | some t =>
      have : (run State.init (ops1 ++ ops2)).pendingTasks.has id = true := by
        simp [JsMap.has, hg]
      exact absurd ((hx2.pending id).mp this) (hx2.completed id rec h2)
  refine ⟨h2, hp, ?_, ?_, rfl⟩
  · simp only [getResponse, h2, hc]
  · simp only [getResponse, h2]

theorem completed_task_is_final_witness :
    (run State.init (sampleCompleted ++ [.getResponse (lit "t1"), .clearSession (lit "all"),
        .getResponse (lit "t1")])).completedTasks.get (lit "t1") =
      some ((newTask (lit "t1") (lit "s1") (lit "hi") 1002 1 |>.start 1003).complete
        sampleSuccess sampleSettleEnv) :=
  (completed_task_is_final sampleCompleted
    [.getResponse (lit "t1"), .clearSession (lit "all"), .getResponse (lit "t1")]
    (lit "t1") _ (by decide) (by decide)).1


theorem pendingProcessing_step {st st1 : State} {new : List JsString}
    (h : PendingProcessing st) (e : TaskEffect st st1 new) : PendingProcessing st1 := by
  intro id t ht
  cases e with
  | same hp hc hs => rw [hp] at ht; exact h id t ht
  | chatStarted m sid r c hp hc hs => rw [hp] at ht; exact h id t ht
  | chatSettled i m sid r c hk hp hc hs => rw [hp] at ht; exact h id t ht
  | dropped i id' t' r c hk hn hp hc hs => rw [hp] at ht; exact h id t ht
  | submitted id' t' r c hst hp hc hs =>
    rw [hp, JsMap.get_set] at ht
    by_cases e : id' = id
    · simp only [e, if_true, Option.some.injEq] at ht
      rw [← ht]; exact hst
    · simp only [e, if_false] at ht; exact h id t ht
  | finished i id' t' r c rec env hk hrec hp hc hs =>
    rw [hp, JsMap.get_delete] at ht
    by_cases e : id' = id
    · simp only [e, if_true] at ht; cases ht
    · simp only [e, if_false] at ht; exact h id t ht

theorem reachable_pendingProcessing (ops : List Op) :
    PendingProcessing (run State.init ops) := by
  have key : ∀ (st : State), PendingProcessing st → PendingProcessing (run st ops) := by
    induction ops with
    | nil => intro st h; exact h
    | cons op ops ih =>
      intro st h
      rw [run_cons]
      exact ih _ (pendingProcessing_step h (step_taskEffect st op))
  apply key
  intro id t ht
  simp [State.init, JsMap.get] at ht

/-- C8: `getResponse` answers by exactly one of three cases, decided by the
completed map first and the pending map second. A completed id gets status 200
with `success` true and the stored status, response, submittedAt, completedAt
and processingTime; an id that is only pending gets status 200 with `success`
true, the task's current status and the wait hint, and in a reachable state
that status is `pending` or `processing`; any other id gets status 404 with
`success` false. The poll changes nothing. -/
theorem getResponse_three_cases (st : State) (ops : List Op) (taskId : JsString) :
    (∀ c, st.completedTasks.get taskId = some c →
      getResponse st taskId =
        ⟨200, .completed true taskId c.sessionId c.status c.response c.submittedAt
          c.completedAt c.processingTime⟩) ∧
    (st.completedTasks.get taskId = none →
      ∀ p, st.pendingTasks.get taskId = some p →
        getResponse st taskId =
          ⟨200, .pending true taskId p.sessionId p.status
            "Your request is still being processed" p.submittedAt "10-30 seconds"⟩) ∧
    (st.completedTasks.get taskId = none → st.pendingTasks.get taskId = none →
      getResponse st taskId =
        ⟨404, .notFound false "Task not found"
          "The task ID does not exist or has expired" taskId⟩) ∧
    (∀ p, (run State.init ops).pendingTasks.get taskId = some p →
      p.status = .pending ∨ p.status = .processing) ∧
    step st (.getResponse taskId) = st := by
  refine ⟨?_, ?_, ?_, ?_, rfl⟩
  · intro c hc; simp only [getResponse, hc]
  · intro hc p hp; simp only [getResponse, hc, hp]
  · intro hc hp; simp only [getResponse, hc, hp]
  · intro p hp
    exact Or.inr (reachable_pendingProcessing ops taskId p hp)

theorem getResponse_three_cases_witness :
    getResponse (run State.init sampleSubmitted) (lit "t1") =
      ⟨200, .pending true (lit "t1") (lit "s1") .processing
        "Your request is still being processed" 1002 "10-30 seconds"⟩ ∧
    getResponse (run State.init sampleCompleted) (lit "t1") =
      ⟨200, .completed true (lit "t1") (lit "s1") .completed
        (some ⟨true, lit "hello", lit "gemini-2.5-flash", 2002⟩) 1002 (some 2001)
        (some 1000)⟩ ∧
    getResponse (run State.init sampleCompleted) (lit "unknown-id") =
      ⟨404, .notFound false "Task not found"
        "The task ID does not exist or has expired" (lit "unknown-id")⟩ :=
  ⟨(getResponse_three_cases (run State.init sampleSubmitted) [] (lit "t1")).2.1
      (by decide) ((newTask (lit "t1") (lit "s1") (lit "hi") 1002 1).start 1003)
      (by decide),
   (getResponse_three_cases (run State.init sampleCompleted) [] (lit "t1")).1
      (((newTask (lit "t1") (lit "s1") (lit "hi") 1002 1).start 1003).complete
        sampleSuccess sampleSettleEnv) (by decide),
   (getResponse_three_cases (run State.init sampleCompleted) [] (lit "unknown-id")).2.2.1
      (by decide) (by decide)⟩


theorem processTaskStart_of_none (st : State) (taskId : JsString) (env : StartEnv)
    (h : st.pendingTasks.get taskId = none) : processTaskStart st taskId env = st := by
  simp [processTaskStart, h]

theorem processTaskStart_of_some (st : State) (taskId : JsString) (env : StartEnv)
    (task : Task) (h : st.pendingTasks.get taskId = some task) :
    ∃ r c,
      (processTaskStart st taskId env).pendingTasks =
        st.pendingTasks.set taskId (task.start env.startedAt) ∧
      (processTaskStart st taskId env).completedTasks = st.completedTasks ∧
      (processTaskStart st taskId env).suspended =
        st.suspended ++ [.task taskId (task.start env.startedAt) r c] := by
  simp only [processTaskStart, h]
  generalize hg : getSession { st with
    pendingTasks := st.pendingTasks.set taskId (task.start env.startedAt) }
    (task.start env.startedAt).sessionId env.createdAt env.lastActive = p
  refine ⟨p.2, ⟨(task.start env.startedAt).message,
    p.1.readArray (task.start env.startedAt).history⟩, ?_, ?_, ?_⟩
  · rw [← hg]; exact getSession_pendingTasks _ _ _ _
  · rw [← hg]; exact getSession_completedTasks _ _ _ _
  · rw [← hg, getSession_suspended]

theorem accounted_step {st st1 : State} {new : List JsString} {id : JsString}
    (h : Accounted st id) (e : TaskEffect st st1 new) : Accounted st1 id := by
  unfold Accounted at h ⊢
  cases e with
  | same hp hc hs => rw [hp, hc]; exact h
  | chatStarted m sid r c hp hc hs => rw [hp, hc]; exact h
  | chatSettled i m sid r c hk hp hc hs => rw [hp, hc]; exact h
  | dropped i id' t' r c hk hn hp hc hs => rw [hp, hc]; exact h
  | submitted id' t' r c hst hp hc hs =>
    rw [hp, hc]
    rcases h with h | h
    · left
      simp only [JsMap.has, JsMap.get_set] at h ⊢
      split
      · rfl
      · exact h
    · exact Or.inr h
  | finished i id' t' r c rec env hk hrec hp hc hs =>
    rw [hp, hc]
    by_cases e : id' = id
    · subst e
      right
      refine ⟨rec, by simp [JsMap.get_set], ?_⟩
      rcases hrec with ⟨response, rfl⟩ | ⟨t1, msg, _, rfl⟩
      · exact Or.inl rfl
      · exact Or.inr rfl
    · simp only [JsMap.has, JsMap.get_delete, JsMap.get_set, e, if_false]
      exact h

theorem run_accounted (st : State) (ops : List Op) (id : JsString) (h : Accounted st id) :
    Accounted (run st ops) id := by
  induction ops generalizing st with
  | nil => exact h
  | cons op ops ih => rw [run_cons]; exact ih _ (accounted_step h (step_taskEffect st op))

theorem settle_task_terminal (st : State) (i : Nat) (taskId : JsString) (t : Task)
    (r : Nat) (c : GenCall) (o : Outcome) (env : SettleEnv) (h : Accounted st taskId)
    (hk : st.suspended[i]? = some (.task taskId t r c)) :
    (settle st i o env).pendingTasks.get taskId = none ∧
    ∃ rec, (settle st i o env).completedTasks.get taskId = some rec ∧
      (rec.status = .completed ∨ rec.status = .failed) := by
  rw [settle_of_get st i _ o env hk]
  simp only [resume]
  cases o with
  | returned response =>
    rw [processTaskResume_returned_pendingTasks, processTaskResume_returned_completedTasks]
    refine ⟨by simp [JsMap.get_delete], t.complete response env,
      by simp [JsMap.get_set], Or.inl rfl⟩
  | threw msg =>
    cases hp : st.pendingTasks.get taskId with
    | some t1 =>
      have e : processTaskResume { st with suspended := st.suspended.eraseIdx i } taskId t r
          (.threw msg) env =
          { st with
              suspended := st.suspended.eraseIdx i
              pendingTasks := st.pendingTasks.delete taskId
              completedTasks := st.completedTasks.set taskId (t1.fail msg env) } := by
        simp only [processTaskResume, hp]
      rw [e]
      refine ⟨by simp [JsMap.get_delete], t1.fail msg env,
        by simp [JsMap.get_set], Or.inr rfl⟩
    | none =>
      have e : processTaskResume { st with suspended := st.suspended.eraseIdx i } taskId t r
          (.threw msg) env = { st with suspended := st.suspended.eraseIdx i } := by
        simp only [processTaskResume, hp]
      rw [e]
      refine ⟨hp, ?_⟩
      rcases h with h | ⟨rec, h1, h2⟩
      · simp [JsMap.has, hp] at h
      · exact ⟨rec, h1, h2⟩

/-- C3: `processTask` on an id that is not in the pending map changes nothing.
On an id that is in the pending map it suspends one generator call; whatever
operations run in between, and however that call settles (a successful
result, a failure result, a thrown exception), afterwards the id is absent
from the pending map and present in the completed map with status
`completed` or `failed`. -/
theorem processTask_ends_terminal (st : State) (taskId : JsString) (senv : StartEnv)
    (ops : List Op) (i : Nat) (t : Task) (r : Nat) (c : GenCall) (o : Outcome)
    (env : SettleEnv) :
    (st.pendingTasks.has taskId = false →
      processTaskStart st taskId senv = st ∧
      (processTaskStart st taskId senv).sessions = st.sessions ∧
      (processTaskStart st taskId senv).pendingTasks = st.pendingTasks ∧
      (processTaskStart st taskId senv).completedTasks = st.completedTasks) ∧
    (st.pendingTasks.has taskId = true →
      (∃ t0 r0 c0, (processTaskStart st taskId senv).suspended =
        st.suspended ++ [.task taskId t0 r0 c0]) ∧
      ((run (processTaskStart st taskId senv) ops).suspended[i]? =
          some (.task taskId t r c) →
        (settle (run (processTaskStart st taskId senv) ops) i o env).pendingTasks.get
          taskId = none ∧
        ∃ rec, (settle (run (processTaskStart st taskId senv) ops) i o env).completedTasks.get
            taskId = some rec ∧
          (rec.status = .completed ∨ rec.status = .failed))) := by
  constructor
  · intro h
    have := processTaskStart_of_none st taskId senv ((JsMap.has_eq_false_iff _ _).mp h)
    rw [this]
    exact ⟨rfl, rfl, rfl, rfl⟩
  · intro h
    obtain ⟨task, ht⟩ := (JsMap.has_eq_true_iff _ _).mp h
    obtain ⟨r0, c0, hp, hc, hs⟩ := processTaskStart_of_some st taskId senv task ht
    refine ⟨⟨_, r0, c0, hs⟩, ?_⟩
    intro hk
    have hacc : Accounted (processTaskStart st taskId senv) taskId := by
      left
      rw [hp]
      simp [JsMap.has, JsMap.get_set]
    exact settle_task_terminal _ i taskId t r c o env (run_accounted _ ops taskId hacc) hk

theorem processTask_ends_terminal_witness :
    (settle (run (processTaskStart sampleBeforeProcess (lit "t1") ⟨1003, 1003, 1003⟩) []) 0
        (.threw (some (lit "boom"))) sampleSettleEnv).pendingTasks.get (lit "t1") = none ∧
    ∃ rec, (settle (run (processTaskStart sampleBeforeProcess (lit "t1") ⟨1003, 1003, 1003⟩) [])
        0 (.threw (some (lit "boom"))) sampleSettleEnv).completedTasks.get (lit "t1") =
          some rec ∧
      (rec.status = .completed ∨ rec.status = .failed) :=
  (processTask_ends_terminal sampleBeforeProcess (lit "t1") ⟨1003, 1003, 1003⟩ [] 0
    ((newTask (lit "t1") (lit "s1") (lit "hi") 1002 1).start 1003) 0
    { userMessage := lit "hi", chatHistory := [] } (.threw (some (lit "boom")))
    sampleSettleEnv).2 (by decide) |>.2 (by decide)


theorem processTaskResume_returned_failure_heap (st : State) (taskId : JsString)
    (task : Task) (session : Nat) (response : GenResult) (env : SettleEnv)
    (hs : response.success = false) :
    (processTaskResume st taskId task session (.returned response) env).arrays = st.arrays ∧
    (processTaskResume st taskId task session (.returned response) env).objects =
      st.objects ∧
    (processTaskResume st taskId task session (.returned response) env).sessions =
      st.sessions := by
  simp [processTaskResume, hs]

/-- C5, as the code has it: a generator result with `success` false puts the
task in the completed map with status `completed` and a response object that
carries `success` false, the generator's message or else the apology text, and
the generator's model or else `unknown`; no error detail is stored and the
heaps and the session map are untouched. A thrown generator call puts the
pending task in the completed map with status `failed` and the thrown error's
message as `error`. In both cases the id leaves the pending map. -/
theorem generator_failure_record (st : State) (i : Nat) (taskId : JsString) (t : Task)
    (r : Nat) (c : GenCall) (env : SettleEnv)
    (hk : st.suspended[i]? = some (.task taskId t r c)) :
    (∀ response : GenResult, response.success = false →
      (settle st i (.returned response) env).completedTasks.get taskId =
        some (t.complete response env) ∧
      (t.complete response env).status = .completed ∧
      (t.complete response env).response =
        some { success := false
               message := orElse response.message
                 (lit "Sorry, I could not generate a response.")
               modelUsed := orElse response.model (lit "unknown")
               timestamp := env.timestamp } ∧
      (t.complete response env).error = t.error ∧
      (settle st i (.returned response) env).pendingTasks.get taskId = none ∧
      (settle st i (.returned response) env).arrays = st.arrays ∧
      (settle st i (.returned response) env).objects = st.objects ∧
      (settle st i (.returned response) env).sessions = st.sessions) ∧
    (∀ (msg : Option JsString) (t1 : Task), st.pendingTasks.get taskId = some t1 →
      (settle st i (.threw msg) env).completedTasks.get taskId = some (t1.fail msg env) ∧
      (t1.fail msg env).status = .failed ∧
      (t1.fail msg env).error = some msg ∧
      (settle st i (.threw msg) env).pendingTasks.get taskId = none ∧
      (settle st i (.threw msg) env).arrays = st.arrays ∧
      (settle st i (.threw msg) env).objects = st.objects ∧
      (settle st i (.threw msg) env).sessions = st.sessions) := by
  constructor
  · intro response hs
    rw [settle_of_get st i _ _ env hk]
    simp only [resume]
    rw [processTaskResume_returned_completedTasks, processTaskResume_returned_pendingTasks]
    obtain ⟨h1, h2, h3⟩ := processTaskResume_returned_failure_heap
      { st with suspended := st.suspended.eraseIdx i } taskId t r response env hs
    refine ⟨by simp [JsMap.get_set], rfl, ?_, rfl, by simp [JsMap.get_delete], h1, h2, h3⟩
    simp [Task.complete, hs]
  · intro msg t1 hp
    rw [settle_of_get st i _ _ env hk]
    have e : processTaskResume { st with suspended := st.suspended.eraseIdx i } taskId t r
        (.threw msg) env =
        { st with
            suspended := st.suspended.eraseIdx i
            pendingTasks := st.pendingTasks.delete taskId
            completedTasks := st.completedTasks.set taskId (t1.fail msg env) } := by
      simp only [processTaskResume, hp]
    simp only [resume]
    rw [e]
    exact ⟨by simp [JsMap.get_set], rfl, rfl, by simp [JsMap.get_delete], rfl, rfl, rfl⟩

theorem generator_failure_record_witness :
    (settle (run State.init sampleSubmitted) 0 (.returned sampleFailure)
        sampleSettleEnv).completedTasks.get (lit "t1") =
      some (((newTask (lit "t1") (lit "s1") (lit "hi") 1002 1).start 1003).complete
        sampleFailure sampleSettleEnv) ∧
    (settle (run State.init sampleSubmitted) 0 (.threw (some (lit "boom")))
        sampleSettleEnv).completedTasks.get (lit "t1") =
      some (((newTask (lit "t1") (lit "s1") (lit "hi") 1002 1).start 1003).fail
        (some (lit "boom")) sampleSettleEnv) :=
  let h := generator_failure_record (run State.init sampleSubmitted) 0 (lit "t1")
    ((newTask (lit "t1") (lit "s1") (lit "hi") 1002 1).start 1003) 0
    { userMessage := lit "hi", chatHistory := [] } sampleSettleEnv (by decide)
  ⟨(h.1 sampleFailure rfl).1, (h.2 (some (lit "boom")) _ (by decide)).1⟩

/-- C5 fails as stated: after the generator answers the pending task `t1`
with its failure result (`success` false, an `error` and `details`), the
completed map holds `t1` with status `completed`, not `failed`, and without
any error detail. -/
theorem generator_failure_not_failed :
    ∃ rec, (run State.init [.submitMessage sampleBody sampleSubmitEnv,
        .settle 0 (.returned sampleFailure) sampleSettleEnv]).completedTasks.get (lit "t1") =
          some rec ∧
      rec.status = .completed ∧ rec.status ≠ .failed ∧ rec.error = none ∧
      rec.response = some ⟨false, lit "Sorry, I could not generate a response.",
        lit "unknown", 2002⟩ := by
  refine ⟨((newTask (lit "t1") (lit "s1") (lit "hi") 1002 1).start 1003).complete
    sampleFailure sampleSettleEnv, by decide, by decide, by decide, by decide, by decide⟩


/-! ## The history snapshot of a task -/

theorem snapshotKept_step {st : State} {id : JsString} {a : Nat} {h : List Turn}
    (hk : SnapshotKept st id a h) (hh : HeapOK st) (op : Op)
    (hf : id ∉ issuedIds [op]) : SnapshotKept (ChatBot.step st op) id a h := by
  have hs := (step_heapStep st op hh).frame a hk.detached
  have eff := step_taskEffect st op
  generalize issuedIds [op] = new at eff hf
  generalize ChatBot.step st op = st1 at eff hs
  refine ⟨hs.1, hs.2.trans hk.content, ?_, ?_, ?_, ?_⟩
  · intro t ht
    cases eff with
    | same hp hc hs' => rw [hp] at ht; exact hk.pending t ht
    | chatStarted m sid r c hp hc hs' => rw [hp] at ht; exact hk.pending t ht
    | chatSettled i m sid r c hk' hp hc hs' => rw [hp] at ht; exact hk.pending t ht
    | dropped i id' t' r c hk' hn hp hc hs' => rw [hp] at ht; exact hk.pending t ht
    | submitted id' t' r c hst hp hc hs' =>
      have hne : id' ≠ id := fun e => hf (by simp [e])
      rw [hp, JsMap.get_set] at ht
      simp only [hne, if_false] at ht
      exact hk.pending t ht
    | finished i id' t' r c rec env hk' hrec hp hc hs' =>
      rw [hp, JsMap.get_delete] at ht
      split at ht
      · cases ht
      · exact hk.pending t ht
  · intro t ht
    cases eff with
    | same hp hc hs' => rw [hc] at ht; exact hk.completed t ht
    | chatStarted m sid r c hp hc hs' => rw [hc] at ht; exact hk.completed t ht
    | chatSettled i m sid r c hk' hp hc hs' => rw [hc] at ht; exact hk.completed t ht
    | dropped i id' t' r c hk' hn hp hc hs' => rw [hc] at ht; exact hk.completed t ht
    | submitted id' t' r c hst hp hc hs' => rw [hc] at ht; exact hk.completed t ht
    | finished i id' t' r c rec env hk' hrec hp hc hs' =>
      rw [hc, JsMap.get_set] at ht
      by_cases e : id' = id
      · subst e
        simp only [if_true, Option.some.injEq] at ht
        subst ht
        rcases hrec with ⟨response, rfl⟩ | ⟨t1, msg, hp1, rfl⟩
        · exact (hk.suspended t' r c (List.mem_iff_getElem?.mpr ⟨i, hk'⟩)).1
        · exact hk.pending t1 hp1
      · simp only [e, if_false] at ht
        exact hk.completed t ht
  · intro t r c hm
    cases eff with
    | same hp hc hs' => rw [hs'] at hm; exact hk.suspended t r c hm
    | chatStarted m sid r' c' hp hc hs' =>
      rw [hs', List.mem_append, List.mem_singleton] at hm
      rcases hm with hm | hm
      · exact hk.suspended t r c hm
      · cases hm
    | chatSettled i m sid r' c' hk' hp hc hs' =>
      rw [hs'] at hm; exact hk.suspended t r c (List.mem_of_mem_eraseIdx hm)
    | dropped i id' t' r' c' hk' hn hp hc hs' =>
      rw [hs'] at hm; exact hk.suspended t r c (List.mem_of_mem_eraseIdx hm)
    | finished i id' t' r' c' rec env hk' hrec hp hc hs' =>
      rw [hs'] at hm; exact hk.suspended t r c (List.mem_of_mem_eraseIdx hm)
    | submitted id' t' r' c' hst hp hc hs' =>
      have hne : id' ≠ id := fun e => hf (by simp [e])
      rw [hs', List.mem_append, List.mem_singleton] at hm
      rcases hm with hm | hm
      · exact hk.suspended t r c hm
      · cases hm; exact absurd rfl hne
  · have held := hk.held
    cases eff with
    | same hp hc hs' => rw [hp, hc]; exact held
    | chatStarted m sid r c hp hc hs' => rw [hp, hc]; exact held
    | chatSettled i m sid r c hk' hp hc hs' => rw [hp, hc]; exact held
    | dropped i id' t' r c hk' hn hp hc hs' => rw [hp, hc]; exact held
    | submitted id' t' r c hst hp hc hs' =>
      have hne : id' ≠ id := fun e => hf (by simp [e])
      rw [hp, hc]
      simp only [JsMap.has, JsMap.get_set, hne, if_false]
      exact held
    | finished i id' t' r c rec env hk' hrec hp hc hs' =>
      rw [hp, hc]
      by_cases e : id' = id
      · right; simp [JsMap.has, JsMap.get_set, e]
      · simp only [JsMap.has, JsMap.get_set, JsMap.get_delete, e, if_false]
        exact held

theorem snapshotKept_run {st : State} {id : JsString} {a : Nat} {h : List Turn}
    (hk : SnapshotKept st id a h) (hh : HeapOK st) (ops : List Op)
    (hf : id ∉ issuedIds ops) : SnapshotKept (ChatBot.run st ops) id a h := by
  induction ops generalizing st with
  | nil => exact hk
  | cons op ops ih =>
    rw [issuedIds_cons, List.mem_append, not_or] at hf
    rw [run_cons]
    exact ih (snapshotKept_step hk hh op hf.1) (step_heapStep st op hh).ok hf.2

theorem getSession_historyOf (st : State) (sid : JsString) (c l : Nat) :
    (getSession st sid c l).1.historyOf (getSession st sid c l).2 = sessionHistory st sid := by
  rcases getSession_cases st sid c l with ⟨r, h1, h2⟩ | ⟨h1, h2⟩
  · rw [h2]; simp [sessionHistory, h1]
  · rw [h2]
    simp [sessionHistory, h1, State.historyOf, readArray_eq]

theorem submitMessage_snapshot (st : State) (ids : List JsString) (body : ChatBody)
    (env : SubmitEnv) (hh : HeapOK st) (hi : Issued st ids)
    (hv : invalidMessage body.message = false) (hf : env.uuid ∉ ids) :
    ∃ a t r,
      (submitMessage st body env).1.pendingTasks.get env.uuid = some t ∧
      t.history = a ∧
      (submitMessage st body env).1.suspended = st.suspended ++
        [.task env.uuid t r
          { userMessage := body.message.str
            chatHistory := sessionHistory st (sessionIdOf body env.dateNow) }] ∧
      SnapshotKept (submitMessage st body env).1 env.uuid a
        (sessionHistory st (sessionIdOf body env.dateNow)) := by
  obtain ⟨st2, r, e2, er, e⟩ := submitMessage_accepted st body env hv
  have h1 := getSession_heapStep st (sessionIdOf body env.dateNow) env.createdAt
    env.createdLastActive hh
  have h2 := setLastActive_heapStep _ r env.lastActive h1.ok
  rw [← e2] at h2
  have hhist : st2.historyOf r = sessionHistory st (sessionIdOf body env.dateNow) := by
    rw [e2, setLastActive_historyOf, er, getSession_historyOf]
  have hc : st2.completedTasks = st.completedTasks := by
    rw [e2, setLastActive_completedTasks, getSession_completedTasks]
  have hs : st2.suspended = st.suspended := by
    rw [e2, setLastActive_suspended, getSession_suspended]
  rw [e, hhist, hs, hc]
  refine ⟨st2.arrays.length, _, r, by simp [JsMap.get_set], rfl, rfl, ?_⟩
  refine ⟨⟨by simp, ?_⟩, ?_, ?_, ?_, ?_, ?_⟩
  · intro r' o ho
    exact Nat.ne_of_lt (h2.ok.objHist r' o ho)
  · simp [readArray_eq]
  · intro t ht
    simp only [JsMap.get_set, if_true, Option.some.injEq] at ht
    rw [← ht]; rfl
  · intro t ht
    exact absurd (hi.completed _ t ht) hf
  · intro t r' c hm
    simp only [List.mem_append, List.mem_singleton] at hm
    rcases hm with hm | hm
    · exact absurd (hi.suspended _ ((mem_taskIds _ _).mpr ⟨t, r', c, hm⟩)) hf
    · cases hm; exact ⟨rfl, rfl⟩
  · left; simp [JsMap.has, JsMap.get_set]

/-- C10: for an accepted submission whose task id is handed out only once,
the task record gets a history array of its own that holds the session's
history of that moment, and the generator is called with these entries. After
any further operations (appends by this or other tasks of the session, trims,
`clearSession`) the record of the task, in the pending or in the completed
map, still has that array as its history and the array still holds the same
entries. -/
theorem snapshot_history_fixed (ops1 ops2 : List Op) (body : ChatBody) (env : SubmitEnv)
    (hv : invalidMessage body.message = false)
    (hf1 : env.uuid ∉ issuedIds ops1) (hf2 : env.uuid ∉ issuedIds ops2) :
    ∃ a t r,
      (submitMessage (run State.init ops1) body env).1.pendingTasks.get env.uuid = some t ∧
      t.history = a ∧
      (submitMessage (run State.init ops1) body env).1.readArray a =
        sessionHistory (run State.init ops1) (sessionIdOf body env.dateNow) ∧
      (submitMessage (run State.init ops1) body env).1.suspended =
        (run State.init ops1).suspended ++
          [.task env.uuid t r
            { userMessage := body.message.str
              chatHistory :=
                sessionHistory (run State.init ops1) (sessionIdOf body env.dateNow) }] ∧
      (∀ rec : Task,
        (run State.init (ops1 ++ .submitMessage body env :: ops2)).pendingTasks.get env.uuid =
            some rec ∨
          (run State.init (ops1 ++ .submitMessage body env :: ops2)).completedTasks.get
            env.uuid = some rec →
        rec.history = a ∧
        (run State.init (ops1 ++ .submitMessage body env :: ops2)).readArray rec.history =
          sessionHistory (run State.init ops1) (sessionIdOf body env.dateNow)) ∧
      ((run State.init (ops1 ++ .submitMessage body env :: ops2)).pendingTasks.has env.uuid =
          true ∨
        (run State.init (ops1 ++ .submitMessage body env :: ops2)).completedTasks.has
          env.uuid = true) ∧
      (∀ (t1 : Task) (r1 : Nat) (c1 : GenCall),
        Suspended.task env.uuid t1 r1 c1 ∈
          (run State.init (ops1 ++ .submitMessage body env :: ops2)).suspended →
        c1.chatHistory =
          sessionHistory (run State.init ops1) (sessionIdOf body env.dateNow)) := by
  obtain ⟨a, t, r, hp, ha, hs, hk⟩ := submitMessage_snapshot (run State.init ops1)
    (issuedIds ops1) body env (reachable_heapOK ops1) (reachable_issued ops1) hv hf1
  have hh1 : HeapOK (submitMessage (run State.init ops1) body env).1 :=
    (submitMessage_heapStep _ body env (reachable_heapOK ops1)).ok
  have hk2 := snapshotKept_run hk hh1 ops2 hf2
  have e : run State.init (ops1 ++ .submitMessage body env :: ops2) =
      run (submitMessage (run State.init ops1) body env).1 ops2 := by
    rw [run_append, run_cons]; rfl
  rw [e]
  refine ⟨a, t, r, hp, ha, hk.content, hs, ?_, hk2.held, ?_⟩
  · intro rec hrec
    have hra : rec.history = a := by
      rcases hrec with h | h
      · exact hk2.pending rec h
      · exact hk2.completed rec h
    exact ⟨hra, by rw [hra]; exact hk2.content⟩
  · intro t1 r1 c1 hm
    exact (hk2.suspended t1 r1 c1 hm).2


theorem snapshot_history_fixed_witness :
    (run State.init (sampleCompleted ++
        .submitMessage sampleBody sampleSubmitEnv2 :: sampleLater)).pendingTasks.get (lit "t2") =
      some ((newTask (lit "t2") (lit "s1") (lit "hi") 3002 2).start 3003) ∧
    (run State.init (sampleCompleted ++
        .submitMessage sampleBody sampleSubmitEnv2 :: sampleLater)).readArray 2 =
      [{ role := .user, text := some (lit "hi") },
       { role := .model, text := some (lit "hello") }] ∧
    (run State.init (sampleCompleted ++
        .submitMessage sampleBody sampleSubmitEnv2 :: sampleLater)).sessions = [] := by
  obtain ⟨a, t, r, -, -, -, -, h, -, -⟩ := snapshot_history_fixed sampleCompleted sampleLater
    sampleBody sampleSubmitEnv2 (by decide) (by decide) (by decide)
  have h2 := (h ((newTask (lit "t2") (lit "s1") (lit "hi") 3002 2).start 3003)
    (Or.inl (by decide))).2
  refine ⟨by decide, ?_, by decide⟩
  rw [show (2 : Nat) = ((newTask (lit "t2") (lit "s1") (lit "hi") 3002 2).start 3003).history
    from rfl, h2]
  decide


/-! ## The canned answers of the generator -/

theorem startsWith_iff (s p : JsString) : startsWith s p = true ↔ p <+: s := by
  induction p generalizing s with
  | nil => cases s <;> simp [startsWith]
  | cons b p ih =>
    cases s with
    | nil => simp [startsWith]
    | cons a s =>
      simp only [startsWith, Bool.and_eq_true, decide_eq_true_eq, ih, List.cons_prefix_cons]
      constructor
      · rintro ⟨h1, h2⟩; exact ⟨h1.symm, h2⟩
      · rintro ⟨h1, h2⟩; exact ⟨h1.symm, h2⟩

theorem includes_iff (s p : JsString) : includes s p = true ↔ p <:+: s := by
  induction s with
  | nil =>
    simp only [includes, startsWith_iff, List.prefix_nil, List.infix_nil]
  | cons a s ih =>
    simp only [includes, Bool.or_eq_true, startsWith_iff, ih, List.infix_cons_iff]

theorem tryModels_of_fail (generateContent : JsString → Option (Option JsString))
    (now : Nat) (models : List JsString)
    (h : ∀ model ∈ models, generateContent model = none) :
    tryModels generateContent now models = none := by
  induction models with
  | nil => rfl
  | cons m rest ih =>
    simp only [tryModels, h m (List.mem_cons_self _ _)]
    exact ih (fun model hm => h model (List.mem_cons_of_mem _ hm))

theorem firstMatch_of_first (rules : List KeywordRule) (text : JsString) (i : Nat)
    (rule : KeywordRule) (hi : rules[i]? = some rule) (ht : rule.test text = true)
    (hj : ∀ (j : Nat) (earlier : KeywordRule), j < i → rules[j]? = some earlier →
      earlier.test text = false) :
    firstMatch rules text = rule.answer := by
  induction rules generalizing i with
  | nil => simp at hi
  | cons r rest ih =>
    cases i with
    | zero =>
      simp only [List.getElem?_cons_zero, Option.some.injEq] at hi
      subst hi
      simp [firstMatch, ht]
    | succ n =>
      have h0 : r.test text = false := hj 0 r (Nat.succ_pos n) (by simp)
      simp only [List.getElem?_cons_succ] at hi
      simp only [firstMatch, h0, Bool.false_eq_true, if_false]
      exact ih n hi (fun j e hlt he => hj (j + 1) e (Nat.succ_lt_succ hlt) (by simpa using he))

theorem firstMatch_of_none (rules : List KeywordRule) (text : JsString)
    (h : ∀ rule ∈ rules, rule.test text = false) : firstMatch rules text = answerGreeting := by
  induction rules with
  | nil => rfl
  | cons r rest ih =>
    simp only [firstMatch, h r (List.mem_cons_self _ _), Bool.false_eq_true, if_false]
    exact ih (fun rule hm => h rule (List.mem_cons_of_mem _ hm))

/-- C14: when the call for every model of `fallbackModels` fails,
`tryFallbackModel` returns `success` true, the model `static-fallback` and
the message `getStaticResponse(userMessage)`. That message is the answer of
the first keyword rule, in the fixed order, that matches the lower-cased
message (a rule that matches while every rule before it does not), and the
greeting when none matches; two messages with the same lower-cased text get
the same answer. -/
theorem static_fallback_first_match
    (generateContent : JsString → Option (Option JsString))
    (toLowerCase : JsString → JsString) (userMessage : JsString) (now : Nat)
    (hfail : ∀ model ∈ fallbackModels, generateContent model = none) :
    tryFallbackModel generateContent toLowerCase userMessage now =
      { success := true, message := some (getStaticResponse toLowerCase userMessage),
        model := some (lit "static-fallback"), isFallback := none, error := none,
        details := none, timestamp := now } ∧
    getStaticResponse toLowerCase userMessage =
      firstMatch keywordRules (toLowerCase userMessage) ∧
    (∀ (i : Nat) (rule : KeywordRule), keywordRules[i]? = some rule →
      rule.test (toLowerCase userMessage) = true →
      (∀ (j : Nat) (earlier : KeywordRule), j < i → keywordRules[j]? = some earlier →
        earlier.test (toLowerCase userMessage) = false) →
      getStaticResponse toLowerCase userMessage = rule.answer) ∧
    ((∀ rule ∈ keywordRules, rule.test (toLowerCase userMessage) = false) →
      getStaticResponse toLowerCase userMessage = answerGreeting) ∧
    (∀ other : JsString, toLowerCase other = toLowerCase userMessage →
      getStaticResponse toLowerCase other = getStaticResponse toLowerCase userMessage) := by
  have hfirst : getStaticResponse toLowerCase userMessage =
      firstMatch keywordRules (toLowerCase userMessage) := rfl
  refine ⟨?_, hfirst, ?_, ?_, ?_⟩
  · simp only [tryFallbackModel, tryModels_of_fail generateContent now fallbackModels hfail]
  · intro i rule hi ht hj
    rw [hfirst]
    exact firstMatch_of_first _ _ i rule hi ht hj
  · intro h
    rw [hfirst]
    exact firstMatch_of_none _ _ h
  · intro other h
    simp only [getStaticResponse, h]

set_option maxRecDepth 100000 in
theorem static_fallback_first_match_witness :
    (tryFallbackModel (fun _ => none) asciiLower
        (lit "What is the MISSION of the PanAfrican AI Summit?") 1500).message =
      some answerWhatIs ∧
    getStaticResponse asciiLower (lit "how do I Join? and what is your focus") =
      answerParticipation ∧
    getStaticResponse asciiLower (lit "hello there") = answerGreeting :=
  ⟨(congrArg GenResult.message (static_fallback_first_match (fun _ => none) asciiLower
      (lit "What is the MISSION of the PanAfrican AI Summit?") 1500
      (fun _ _ => rfl)).1).trans (by decide),
   by decide, by decide⟩

/-! ## What a completed task keeps of the generator's result -/

theorem settle_returned_isFallback (st : State) (i : Nat) (response : GenResult)
    (b : Option Bool) (env : SettleEnv) :
    settle st i (.returned { response with isFallback := b }) env =
      settle st i (.returned response) env := by
  unfold settle
  cases st.suspended[i]? with
  | none => rfl
  | some k => cases k <;> rfl

/-- C13, as the code has it: when the generator call of a task settles with a
successful result, the completed record, and the answer of `getResponse`,
carry as `modelUsed` the generator's `model` (and `unknown` when the result has
no model or an empty one), next to `success`, the message and a timestamp. The
`isFallback` of the result is read nowhere: any two results that differ in it
alone lead to the same controller state. -/
theorem provenance_model_only (st : State) (i : Nat) (taskId : JsString) (t : Task)
    (r : Nat) (c : GenCall) (env : SettleEnv) (response : GenResult)
    (hk : st.suspended[i]? = some (.task taskId t r c))
    (hs : response.success = true) :
    (settle st i (.returned response) env).completedTasks.get taskId =
      some (t.complete response env) ∧
    getResponse (settle st i (.returned response) env) taskId =
      ⟨200, .completed true taskId t.sessionId .completed
        (some { success := true
                message := orElse response.message
                  (lit "Sorry, I could not generate a response.")
                modelUsed := orElse response.model (lit "unknown")
                timestamp := env.timestamp })
        t.submittedAt (some env.completedAt) (elapsed env.finishedAt t.startedAt)⟩ ∧
    (∀ m : JsString, response.model = some m → m ≠ [] →
      orElse response.model (lit "unknown") = m) ∧
    (∀ b : Option Bool,
      settle st i (.returned { response with isFallback := b }) env =
        settle st i (.returned response) env) := by
  have hget : (settle st i (.returned response) env).completedTasks.get taskId =
      some (t.complete response env) := by
    rw [settle_of_get st i _ _ env hk]
    simp only [resume]
    rw [processTaskResume_returned_completedTasks]
    simp [JsMap.get_set]
  refine ⟨hget, ?_, ?_, fun b => settle_returned_isFallback st i response b env⟩
  · simp only [getResponse, hget, Task.complete, hs]
  · intro m hm hne
    cases m with
    | nil => exact absurd rfl hne
    | cons a l => simp [orElse, hm]

theorem provenance_model_only_witness :
    getResponse (settle (run State.init sampleSubmitted) 0 (.returned sampleFallback)
        sampleSettleEnv) (lit "t1") =
      ⟨200, .completed true (lit "t1") (lit "s1") .completed
        (some ⟨true, lit "hello", lit "gemini-1.5-flash", 2002⟩) 1002 (some 2001)
        (some 1000)⟩ :=
  (provenance_model_only (run State.init sampleSubmitted) 0 (lit "t1")
    ((newTask (lit "t1") (lit "s1") (lit "hi") 1002 1).start 1003) 0
    { userMessage := lit "hi", chatHistory := [] } sampleSettleEnv sampleFallback
    (by decide) (by decide)).2.1.trans (by decide)

/-- C13 fails as stated: the result of a fallback model carries `isFallback`
true, yet the controller ends in the same state, and `getResponse` gives the
same answer, as for the result without `isFallback`; the answer holds
`success`, the message, `modelUsed` and a timestamp only. -/
theorem fallback_flag_not_stored :
    sampleFallback.isFallback = some true ∧
    run State.init [.submitMessage sampleBody sampleSubmitEnv,
        .settle 0 (.returned sampleFallback) sampleSettleEnv] =
      run State.init [.submitMessage sampleBody sampleSubmitEnv,
        .settle 0 (.returned { sampleFallback with isFallback := none }) sampleSettleEnv] ∧
    getResponse (run State.init [.submitMessage sampleBody sampleSubmitEnv,
        .settle 0 (.returned sampleFallback) sampleSettleEnv]) (lit "t1") =
      ⟨200, .completed true (lit "t1") (lit "s1") .completed
        (some ⟨true, lit "hello", lit "gemini-1.5-flash", 2002⟩) 1002 (some 2001)
        (some 1000)⟩ := by
  refine ⟨by decide, by decide, by decide⟩

/-! ## The session map -/

theorem JsMap.keys_set_of_none {α : Type} (m : JsMap α) (k : JsString) (v : α)
    (h : m.get k = none) : (m.set k v).keys = m.keys ++ [k] := by
  induction m with
  | nil => rfl
  | cons e m ih =>
    obtain ⟨a, b⟩ := e
    by_cases hk : a = k
    · simp [JsMap.get, hk] at h
    · simp only [JsMap.get, hk, if_false] at h
      have := ih h
      simp only [JsMap.keys] at this
      simp [JsMap.set, JsMap.keys, hk, this]

theorem JsMap.not_mem_keys_of_get_none {α : Type} (m : JsMap α) (k : JsString)
    (h : m.get k = none) : k ∉ m.keys := by
  induction m with
  | nil => simp [JsMap.keys]
  | cons e m ih =>
    obtain ⟨a, b⟩ := e
    by_cases hk : a = k
    · simp [JsMap.get, hk] at h
    · simp only [JsMap.get, hk, if_false] at h
      have := ih h
      simp only [JsMap.keys] at this
      simp only [JsMap.keys, List.map_cons, List.mem_cons, not_or]
      exact ⟨fun e => hk e.symm, this⟩

theorem JsMap.delete_eq_filter {α : Type} (m : JsMap α) (k : JsString) :
    m.delete k = m.filter (fun e => decide (e.1 ≠ k)) := by
  induction m with
  | nil => rfl
  | cons e m ih =>
    obtain ⟨a, b⟩ := e
    by_cases hk : a = k
    · simp [JsMap.delete, hk, ih]
    · simp [JsMap.delete, hk, ih]

theorem JsMap.keys_delete_nodup {α : Type} (m : JsMap α) (k : JsString)
    (h : m.keys.Nodup) : (m.delete k).keys.Nodup := by
  rw [JsMap.delete_eq_filter]
  simp only [JsMap.keys] at h ⊢
  exact (List.Nodup.sublist (List.Sublist.map _ (List.filter_sublist _)) h)

theorem JsMap.size_delete {α : Type} (m : JsMap α) (k : JsString) (v : α)
    (hn : m.keys.Nodup) (h : m.get k = some v) : (m.delete k).size + 1 = m.size := by
  induction m with
  | nil => simp [JsMap.get] at h
  | cons e m ih =>
    obtain ⟨a, b⟩ := e
    simp only [JsMap.keys, List.map_cons, List.nodup_cons] at hn
    by_cases hk : a = k
    · subst hk
      have hfil : JsMap.delete m a = m := by
        rw [JsMap.delete_eq_filter]
        apply List.filter_eq_self.mpr
        intro e he
        have : e.1 ∈ m.map Prod.fst := List.mem_map_of_mem Prod.fst he
        simp only [decide_eq_true_eq]
        intro heq
        exact hn.1 (heq ▸ this)
      simp [JsMap.delete, JsMap.size, hfil]
    · simp only [JsMap.get, hk, if_false] at h
      have := ih hn.2 h
      simp only [JsMap.size] at this
      simp only [JsMap.delete, hk, if_false, JsMap.size, List.length_cons]
      omega

theorem step_sessions (st : State) (op : Op) :
    (step st op).sessions = st.sessions ∨
    (∃ sid r, st.sessions.get sid = none ∧ (step st op).sessions = st.sessions.set sid r) ∨
    (op = .clearSession (lit "all") ∧ (step st op).sessions = []) ∨
    (∃ sid, op = .clearSession sid ∧ sid ≠ lit "all" ∧
      (step st op).sessions = st.sessions.delete sid) := by
  have hget : ∀ (sid : JsString) (c l : Nat),
      (getSession st sid c l).1.sessions = st.sessions ∨
      (∃ sid' r, st.sessions.get sid' = none ∧
        (getSession st sid c l).1.sessions = st.sessions.set sid' r) := by
    intro sid c l
    rcases getSession_cases st sid c l with ⟨r, _, h2⟩ | ⟨h1, h2⟩
    · left; rw [h2]
    · right; exact ⟨sid, st.objects.length, h1, by rw [h2]⟩
  cases op with
  | submitMessage body env =>
    cases hv : invalidMessage body.message with
    | true => left; simp only [step]; rw [submitMessage_invalid st body env hv]
    | false =>
      obtain ⟨st2, r, e2, er, e⟩ := submitMessage_accepted st body env hv
      have hs : (step st (.submitMessage body env)).sessions =
          (getSession st (sessionIdOf body env.dateNow) env.createdAt
            env.createdLastActive).1.sessions := by
        simp only [step]; rw [e, e2, setLastActive_sessions]
      rw [hs]
      rcases hget (sessionIdOf body env.dateNow) env.createdAt env.createdLastActive with
        h | h
      · exact Or.inl h
      · exact Or.inr (Or.inl h)
  | chat body env =>
    cases hv : invalidMessage body.message with
    | true => left; simp only [step]; rw [chatStart_invalid st body env hv]
    | false =>
      obtain ⟨st2, r, e2, er, e⟩ := chatStart_accepted st body env hv
      have hs : (step st (.chat body env)).sessions =
          (getSession st (sessionIdOf body env.dateNow) env.createdAt
            env.createdLastActive).1.sessions := by
        simp only [step]; rw [e, e2, setLastActive_sessions]
      rw [hs]
      rcases hget (sessionIdOf body env.dateNow) env.createdAt env.createdLastActive with
        h | h
      · exact Or.inl h
      · exact Or.inr (Or.inl h)
  | settle i o env =>
    left
    simp only [step]
    cases hk : st.suspended[i]? with
    | none => rw [settle_of_none st i o env hk]
    | some k => rw [settle_of_get st i k o env hk, resume_sessions]
  | getResponse _ => exact Or.inl rfl
  | getActiveSessions _ => exact Or.inl rfl
  | getPendingTasks => exact Or.inl rfl
  | clearSession sid =>
    simp only [step, clearSession]
    by_cases h1 : sid = lit "all"
    · right; right; left
      simp [h1]
    · by_cases h2 : st.sessions.has sid = true
      · right; right; right
        exact ⟨sid, rfl, h1, by simp [h1, h2]⟩
      · left; simp [h1, h2]

theorem step_sessions_nodup (st : State) (op : Op) (h : st.sessions.keys.Nodup) :
    (step st op).sessions.keys.Nodup := by
  rcases step_sessions st op with e | ⟨sid, r, hn, e⟩ | ⟨_, e⟩ | ⟨sid, _, _, e⟩
  · rw [e]; exact h
  · rw [e, JsMap.keys_set_of_none _ _ _ hn]
    exact List.Nodup.append h (List.nodup_singleton _)
      (by
        intro x hx hx'
        simp only [List.mem_singleton] at hx'
        subst hx'
        exact JsMap.not_mem_keys_of_get_none _ _ hn hx)
  · rw [e]; simp [JsMap.keys]
  · rw [e]; exact JsMap.keys_delete_nodup _ _ h

theorem reachable_sessions_nodup (ops : List Op) :
    (run State.init ops).sessions.keys.Nodup := by
  have key : ∀ st : State, st.sessions.keys.Nodup → (run st ops).sessions.keys.Nodup := by
    induction ops with
    | nil => intro st h; exact h
    | cons op ops ih =>
      intro st h
      rw [run_cons]
      exact ih _ (step_sessions_nodup st op h)
  exact key _ (by simp [State.init, JsMap.keys])

theorem step_sessions_get (st : State) (op : Op) (sid : JsString) (r : Nat)
    (h : st.sessions.get sid = some r) (hc : op.clears sid = false) :
    (step st op).sessions.get sid = some r := by
  rcases step_sessions st op with e | ⟨sid', r', hn, e⟩ | ⟨e1, e⟩ | ⟨sid', e1, hne, e⟩
  · rw [e]; exact h
  · rw [e, JsMap.get_set]
    have : sid' ≠ sid := by
      rintro rfl
      rw [hn] at h; cases h
    simp only [this, if_false]; exact h
  · subst e1
    simp [Op.clears] at hc
  · subst e1
    simp only [Op.clears, Bool.or_eq_false_iff, decide_eq_false_iff_not] at hc
    rw [e, JsMap.get_delete]
    simp only [hc.2, if_false]; exact h

theorem run_sessions_get (st : State) (ops : List Op) (sid : JsString) (r : Nat)
    (h : st.sessions.get sid = some r) (hc : ∀ op ∈ ops, op.clears sid = false) :
    (run st ops).sessions.get sid = some r := by
  induction ops generalizing st with
  | nil => exact h
  | cons op ops ih =>
    rw [run_cons]
    exact ih _ (step_sessions_get st op sid r h (hc op (List.mem_cons_self _ _)))
      (fun op' hm => hc op' (List.mem_cons_of_mem _ hm))

/-- C12: `clearSession` with `all` empties the session map and reports as
`sessionsCleared` the size of the map before the call, which counts the
sessions because no id occurs twice; a listing afterwards has total 0. With
another id that is in the map it removes that entry, keeps the entry of every
other id and makes the map one entry smaller. With another id that is not in
the map it answers 404 and keeps the map. In every case the pending map, the
completed map, the heaps and the suspended calls are unchanged. -/
theorem clearSession_three_cases (ops : List Op) (sessionId : JsString) (now : Nat → Nat) :
    (sessionId = lit "all" →
      (clearSession (run State.init ops) sessionId).1.sessions = [] ∧
      (clearSession (run State.init ops) sessionId).2 =
        ⟨200, .all (lit ("Cleared all " ++ toString (run State.init ops).sessions.size ++
          " sessions")) (run State.init ops).sessions.size⟩ ∧
      (run State.init ops).sessions.size = (run State.init ops).sessions.keys.length ∧
      (getActiveSessions (clearSession (run State.init ops) sessionId).1
        now).body.totalSessions = 0) ∧
    (sessionId ≠ lit "all" → (run State.init ops).sessions.has sessionId = true →
      (clearSession (run State.init ops) sessionId).2 =
        ⟨200, .one "Session cleared successfully" sessionId⟩ ∧
      (clearSession (run State.init ops) sessionId).1.sessions.get sessionId = none ∧
      (∀ sid : JsString, sid ≠ sessionId →
        (clearSession (run State.init ops) sessionId).1.sessions.get sid =
          (run State.init ops).sessions.get sid) ∧
      (∀ e : JsString × Nat, e ∈ (clearSession (run State.init ops) sessionId).1.sessions ↔
        e ∈ (run State.init ops).sessions ∧ e.1 ≠ sessionId) ∧
      (clearSession (run State.init ops) sessionId).1.sessions.size + 1 =
        (run State.init ops).sessions.size) ∧
    (sessionId ≠ lit "all" → (run State.init ops).sessions.has sessionId = false →
      (clearSession (run State.init ops) sessionId).2 = ⟨404, .notFound "Session not found"⟩ ∧
      (clearSession (run State.init ops) sessionId).1.sessions =
        (run State.init ops).sessions) ∧
    (clearSession (run State.init ops) sessionId).1.pendingTasks =
      (run State.init ops).pendingTasks ∧
    (clearSession (run State.init ops) sessionId).1.completedTasks =
      (run State.init ops).completedTasks ∧
    (clearSession (run State.init ops) sessionId).1.arrays = (run State.init ops).arrays ∧
    (clearSession (run State.init ops) sessionId).1.objects = (run State.init ops).objects ∧
    (clearSession (run State.init ops) sessionId).1.suspended =
      (run State.init ops).suspended ∧
    (run State.init ops).sessions.keys.Nodup := by
  have hnd := reachable_sessions_nodup ops
  generalize run State.init ops = st at hnd ⊢
  refine ⟨?_, ?_, ?_, ?_, ?_, ?_, ?_, ?_, hnd⟩
  · intro h
    simp [clearSession, h, getActiveSessions, JsMap.size, JsMap.keys]
  · intro h1 h2
    obtain ⟨v, hv⟩ := (JsMap.has_eq_true_iff _ _).mp h2
    have e : clearSession st sessionId =
        ({ st with sessions := st.sessions.delete sessionId },
          ⟨200, .one "Session cleared successfully" sessionId⟩) := by
      simp [clearSession, h1, h2]
    rw [e]
    refine ⟨rfl, by simp [JsMap.get_delete], ?_, ?_, JsMap.size_delete _ _ v hnd hv⟩
    · intro sid hne
      simp only [JsMap.get_delete]
      have : ¬ sessionId = sid := fun e => hne e.symm
      simp [this]
    · intro e
      simp only [JsMap.delete_eq_filter, List.mem_filter, decide_eq_true_eq]
  · intro h1 h2
    simp [clearSession, h1, h2]
  all_goals
    unfold clearSession
    split
    · rfl
    · split <;> rfl

theorem clearSession_three_cases_witness :
    (clearSession (run State.init sampleCompleted) (lit "all")).2 =
      ⟨200, .all (lit "Cleared all 1 sessions") 1⟩ ∧
    (clearSession (run State.init sampleCompleted) (lit "s1")).1.sessions = [] ∧
    (clearSession (run State.init sampleCompleted) (lit "s9")).2 =
      ⟨404, .notFound "Session not found"⟩ :=
  ⟨((clearSession_three_cases sampleCompleted (lit "all") (fun _ => 0)).1 rfl).2.1.trans
      (by decide),
   by decide,
   ((clearSession_three_cases sampleCompleted (lit "s9") (fun _ => 0)).2.2.1 (by decide)
      (by decide)).1⟩

/-! ## The exchange of a task and the session of the map -/

theorem submitMessage_captures_session (st : State) (body : ChatBody) (env : SubmitEnv)
    (hv : invalidMessage body.message = false) :
    ∃ t r c,
      (submitMessage st body env).1.suspended = st.suspended ++ [.task env.uuid t r c] ∧
      t.sessionId = sessionIdOf body env.dateNow ∧
      t.message = body.message.str ∧
      (submitMessage st body env).1.sessions.get (sessionIdOf body env.dateNow) = some r := by
  obtain ⟨st2, r, e2, er, e⟩ := submitMessage_accepted st body env hv
  have hs : st2.suspended = st.suspended := by
    rw [e2, setLastActive_suspended, getSession_suspended]
  have hg : st2.sessions.get (sessionIdOf body env.dateNow) = some r := by
    rw [e2, setLastActive_sessions, er]
    exact getSession_sessions_get _ _ _ _
  rw [e]
  exact ⟨_, r, _, by rw [hs], rfl, rfl, hg⟩

/-- C11, as the code has it: `processTask` keeps the session object it looked
up before the generator call. For an accepted submission, whose `processTask`
call is suspended with the task's message and session id, and every
interleaving of operations during the call that has no `clearSession` of the
task's session id or of `all` (other tasks of the session completing, further
submissions and `chat` requests are allowed), when the call settles with a
successful result the session map still holds that session object under the
task's session id, and the last two entries of its history are the task's
user turn followed by the generated model turn. -/
theorem exchange_reaches_uncleared_session (ops1 ops2 : List Op) (body : ChatBody)
    (env : SubmitEnv) (i : Nat) (id : JsString) (t : Task) (r : Nat) (c : GenCall)
    (response : GenResult) (senv : SettleEnv)
    (hv : invalidMessage body.message = false)
    (hcall : (submitMessage (run State.init ops1) body env).1.suspended =
      (run State.init ops1).suspended ++ [.task id t r c])
    (hclear : ∀ op ∈ ops2, op.clears (sessionIdOf body env.dateNow) = false)
    (hk : (run State.init (ops1 ++ .submitMessage body env :: ops2)).suspended[i]? =
      some (.task id t r c))
    (hs : response.success = true) :
    id = env.uuid ∧
    t.sessionId = sessionIdOf body env.dateNow ∧
    t.message = body.message.str ∧
    (settle (run State.init (ops1 ++ .submitMessage body env :: ops2)) i
      (.returned response) senv).sessions.get t.sessionId = some r ∧
    ∃ kept,
      (settle (run State.init (ops1 ++ .submitMessage body env :: ops2)) i
        (.returned response) senv).historyOf r =
      kept ++ [{ role := .user, text := some t.message },
               { role := .model, text := response.message }] := by
  obtain ⟨t1, r1, c1, h1, h2, h3, h4⟩ :=
    submitMessage_captures_session (run State.init ops1) body env hv
  have heq : Suspended.task id t r c = Suspended.task env.uuid t1 r1 c1 := by
    have := hcall.symm.trans h1
    simpa using this
  cases heq
  have e : run State.init (ops1 ++ .submitMessage body env :: ops2) =
      run (submitMessage (run State.init ops1) body env).1 ops2 := by
    rw [run_append, run_cons]; rfl
  have hg : (run State.init (ops1 ++ .submitMessage body env :: ops2)).sessions.get
      t.sessionId = some r := by
    rw [e, h2]
    exact run_sessions_get _ ops2 _ r h4 hclear
  have hh := reachable_heapOK (ops1 ++ .submitMessage body env :: ops2)
  have hr := reachable_refsOK (ops1 ++ .submitMessage body env :: ops2)
  have hist := settle_success_historyOf _ i _ response senv hh hr hk hs
  simp only [Suspended.session, Suspended.message] at hist
  refine ⟨rfl, h2, h3, ?_, _, hist.trans (sliceLast_append_two _ _ _)⟩
  rw [settle_of_get _ i _ _ senv hk, resume_sessions]
  exact hg

theorem exchange_reaches_uncleared_session_witness :
    (settle (run State.init (sampleCompleted ++ .submitMessage sampleBody sampleSubmitEnv2 ::
        [.submitMessage sampleBody sampleSubmitEnv3,
         .settle 1 (.returned sampleSuccess) sampleSettleEnv])) 0
      (.returned sampleFallback) sampleSettleEnv).sessions.get (lit "s1") = some 0 ∧
    ∃ kept,
      (settle (run State.init (sampleCompleted ++
          .submitMessage sampleBody sampleSubmitEnv2 ::
          [.submitMessage sampleBody sampleSubmitEnv3,
           .settle 1 (.returned sampleSuccess) sampleSettleEnv])) 0
        (.returned sampleFallback) sampleSettleEnv).historyOf 0 =
      kept ++ [{ role := .user, text := some (lit "hi") },
               { role := .model, text := some (lit "hello") }] :=
  (exchange_reaches_uncleared_session sampleCompleted
    [.submitMessage sampleBody sampleSubmitEnv3,
     .settle 1 (.returned sampleSuccess) sampleSettleEnv]
    sampleBody sampleSubmitEnv2 0 (lit "t2")
    ((newTask (lit "t2") (lit "s1") (lit "hi") 3002 2).start 3003) 0
    { userMessage := lit "hi",
      chatHistory := [{ role := .user, text := some (lit "hi") },
                      { role := .model, text := some (lit "hello") }] }
    sampleFallback sampleSettleEnv (by decide) (by decide) (by decide) (by decide)
    (by decide)).2.2.2

/-- C11 fails as stated: task `t1` is submitted on session `s1`, the session
is cleared and created again by a second submission while the generator call
of `t1` is in flight, and the call succeeds. `t1` is then completed, the
session stored under `s1` is the new object and its history is empty: the two
turns were pushed on the removed session object. -/
theorem exchange_misses_recreated_session :
    (run State.init (sampleCleared ++
        [.settle 0 (.returned sampleSuccess) sampleSettleEnv])).completedTasks.has
      (lit "t1") = true ∧
    (run State.init (sampleCleared ++
        [.settle 0 (.returned sampleSuccess) sampleSettleEnv])).sessions.get (lit "s1") =
      some 1 ∧
    (run State.init (sampleCleared ++
        [.settle 0 (.returned sampleSuccess) sampleSettleEnv])).historyOf 1 = [] ∧
    (run State.init (sampleCleared ++
        [.settle 0 (.returned sampleSuccess) sampleSettleEnv])).historyOf 0 =
      [{ role := .user, text := some (lit "hi") },
       { role := .model, text := some (lit "hello") }] := by
  refine ⟨by decide, by decide, by decide, by decide⟩

end ChatBot
